import Mathlib

/-!
# Verification of the AutoGitLLM change-collection and prompt-assembly pipeline

A shallow embedding of the core pipeline of the AutoGitLLM repository:

* `src/git.ts` — `collectRepositoryChanges`, `runGit`, `parseLines`,
  `uniqueLines`, `readUntrackedFileContent`, `looksBinary`, `trimUtf8`;
* the prompt builder — `buildPrompt`.

JavaScript strings are modelled as `List Char` (sequences of Unicode scalar
values).  `Buffer` values are modelled as `List Nat` byte lists.  Node's
UTF-8 encoding (`Buffer.from(s, "utf8")` / `Buffer.byteLength`) and its
decoding (`buffer.toString("utf8")`, which follows the WHATWG decoder and
replaces ill-formed or truncated sequences with U+FFFD) are embedded
explicitly, because the truncation behaviour of `trimUtf8` depends on them.

Effectful operations are embedded by explicit environment passing:

* every `git` invocation is a function from the argument list to a
  `GitOutcome` (captured stdout/stderr plus an optional transport error);
* every untracked-file disk access is a function from the file path to an
  `FsOutcome`.

Failure (a rejected promise / thrown error) is modelled with `Except`.
-/

/-- JavaScript strings, modelled as lists of Unicode scalar values. -/
abbrev JStr := List Char

/-- Convert a Lean string literal to the `JStr` model. -/
def str (s : String) : JStr := s.toList

/-- The ECMAScript `WhiteSpace` / `LineTerminator` set used by
`String.prototype.trim`: TAB, LF, VT, FF, CR, SP, NBSP, ZWNBSP/BOM, the
Unicode `Zs` space separators, and the line terminators LS/PS. -/
def isJsWhitespace (c : Char) : Bool :=
  c.toNat = 9 || c.toNat = 10 || c.toNat = 11 || c.toNat = 12 || c.toNat = 13 ||
  c.toNat = 32 || c.toNat = 0xA0 || c.toNat = 0x1680 ||
  (0x2000 ≤ c.toNat && c.toNat ≤ 0x200A) ||
  c.toNat = 0x2028 || c.toNat = 0x2029 ||
  c.toNat = 0x202F || c.toNat = 0x205F || c.toNat = 0x3000 || c.toNat = 0xFEFF

/-- Drop JS whitespace from the end of a string. -/
def jsTrimRight (s : JStr) : JStr :=
  (s.reverse.dropWhile isJsWhitespace).reverse

/-- `String.prototype.trim`: drop JS whitespace from both ends. -/
def jsTrim (s : JStr) : JStr :=
  jsTrimRight (s.dropWhile isJsWhitespace)

/-- Prepend a character to the first piece of a split result (used to keep a
carriage return that is not followed by a line feed inside the current line). -/
def consHead (c : Char) : List JStr → List JStr
  | [] => [[c]]
  | l :: ls => (c :: l) :: ls

/-- `value.split(/\r?\n/)`: split at every LF, treating an immediately
preceding CR as part of the separator; a CR not followed by LF stays in the
line. -/
def jsSplitLines : JStr → List JStr
  | [] => [[]]
  | '\n' :: rest => [] :: jsSplitLines rest
  | '\r' :: '\n' :: rest => [] :: jsSplitLines rest
  | c :: rest => consHead c (jsSplitLines rest)

/-- `parseLines` (src/git.ts): split the raw output on `/\r?\n/`, trim each
line, and drop the empty ones. -/
def parseLines (value : JStr) : List JStr :=
  ((jsSplitLines value).map jsTrim).filter (fun line => line ≠ [])

/-- Worker for `uniqueLines`; `seen` models the JS `Set` of already emitted
lines (JS `Set.has` on strings is exact string equality). -/
def uniqueLinesGo (seen : List JStr) : List JStr → List JStr
  | [] => []
  | line :: rest =>
    if line ∈ seen then uniqueLinesGo seen rest
    else line :: uniqueLinesGo (line :: seen) rest

/-- `uniqueLines` (src/git.ts): keep the first occurrence of every line,
preserving order. -/
def uniqueLines (lines : List JStr) : List JStr :=
  uniqueLinesGo [] lines

/-- `Array.prototype.join(sep)`. -/
def jsJoin (sep : JStr) : List JStr → JStr
  | [] => []
  | [x] => x
  | x :: xs => x ++ sep ++ jsJoin sep xs

/-- Decimal rendering of a natural number (JS number-to-string interpolation
for the non-negative integers that occur here). -/
def natStr (n : Nat) : JStr := (Nat.repr n).toList

/-! ## UTF-8 encoding and decoding (Node `Buffer` semantics) -/

/-- UTF-8 encoding of one Unicode scalar value (`Buffer.from(s, "utf8")`
encodes each scalar value like this; JS strings in this embedding contain no
lone surrogates, matching Lean's `Char`). -/
def utf8CharBytes (c : Char) : List Nat :=
  let v := c.toNat
  if v < 0x80 then [v]
  else if v < 0x800 then [0xC0 + v / 64, 0x80 + v % 64]
  else if v < 0x10000 then [0xE0 + v / 4096, 0x80 + v / 64 % 64, 0x80 + v % 64]
  else [0xF0 + v / 262144, 0x80 + v / 4096 % 64, 0x80 + v / 64 % 64, 0x80 + v % 64]

/-- `Buffer.from(text, "utf8")`: the UTF-8 byte sequence of a string. -/
def utf8Encode (s : JStr) : List Nat :=
  (s.map utf8CharBytes).flatten

/-- `Buffer.byteLength(text, "utf8")`. -/
def utf8ByteLength (s : JStr) : Nat :=
  (utf8Encode s).length

/-- U+FFFD REPLACEMENT CHARACTER, emitted by the WHATWG UTF-8 decoder for
ill-formed input. -/
def replChar : Char := Char.ofNat 0xFFFD

/-- One step of the WHATWG UTF-8 decoder used by `buffer.toString("utf8")`:
given the first byte and the remaining bytes, return the decoded character
(or U+FFFD for an ill-formed / truncated sequence) and the bytes that remain
after the consumed maximal subpart. -/
def utf8Step (b : Nat) (rest : List Nat) : Char × List Nat :=
  if b < 0x80 then (Char.ofNat b, rest)
  else if b < 0xC2 then (replChar, rest)
  else if b ≤ 0xDF then
    match rest with
    | [] => (replChar, [])
    | b1 :: r1 =>
      if 0x80 ≤ b1 ∧ b1 ≤ 0xBF then
        (Char.ofNat ((b - 0xC0) * 64 + (b1 - 0x80)), r1)
      else (replChar, b1 :: r1)
  else if b ≤ 0xEF then
    match rest with
    | [] => (replChar, [])
    | b1 :: r1 =>
      if (if b = 0xE0 then 0xA0 else 0x80) ≤ b1 ∧ b1 ≤ (if b = 0xED then 0x9F else 0xBF) then
        match r1 with
        | [] => (replChar, [])
        | b2 :: r2 =>
          if 0x80 ≤ b2 ∧ b2 ≤ 0xBF then
            (Char.ofNat ((b - 0xE0) * 4096 + (b1 - 0x80) * 64 + (b2 - 0x80)), r2)
          else (replChar, b2 :: r2)
      else (replChar, b1 :: r1)
  else if b ≤ 0xF4 then
    match rest with
    | [] => (replChar, [])
    | b1 :: r1 =>
      if (if b = 0xF0 then 0x90 else 0x80) ≤ b1 ∧ b1 ≤ (if b = 0xF4 then 0x8F else 0xBF) then
        match r1 with
        | [] => (replChar, [])
        | b2 :: r2 =>
          if 0x80 ≤ b2 ∧ b2 ≤ 0xBF then
            match r2 with
            | [] => (replChar, [])
            | b3 :: r3 =>
              if 0x80 ≤ b3 ∧ b3 ≤ 0xBF then
                (Char.ofNat ((b - 0xF0) * 262144 + (b1 - 0x80) * 4096 + (b2 - 0x80) * 64 + (b3 - 0x80)), r3)
              else (replChar, b3 :: r3)
          else (replChar, b2 :: r2)
      else (replChar, b1 :: r1)
  else (replChar, rest)

/-- `buffer.toString("utf8")`: WHATWG UTF-8 decoding with U+FFFD replacement
of ill-formed (including truncated) sequences. -/
def utf8DecodeR : List Nat → List Char
  | [] => []
  | b :: rest =>
    let s := utf8Step b rest
    s.1 :: utf8DecodeR s.2
termination_by bs => bs.length
decreasing_by
  simp only [List.length_cons]
  refine Nat.lt_succ_of_le ?_
  have hstep : ∀ (b : Nat) (bs : List Nat), (utf8Step b bs).2.length ≤ bs.length := by
    intro b bs
    unfold utf8Step
    repeat' split
    all_goals simp_all
    all_goals omega
  exact hstep _ _

/-! ## Byte-bounded truncator (`trimUtf8`, src/git.ts) -/

/-- The fixed truncation marker appended by `trimUtf8`. -/
def truncationMarker : JStr := str "\n\n[Diff truncated due to maxDiffBytes limit]"

/-- `trimUtf8` (src/git.ts): if the UTF-8 byte length fits the budget return
the text unchanged, otherwise decode the first `maxBytes` bytes of the UTF-8
encoding (`buffer.subarray(0, maxBytes).toString("utf8")`) and append the
truncation marker. -/
def trimUtf8 (text : JStr) (maxBytes : Nat) : JStr × Bool :=
  if utf8ByteLength text ≤ maxBytes then (text, false)
  else (utf8DecodeR ((utf8Encode text).take maxBytes) ++ truncationMarker, true)

/-! ## Text classifier (`looksBinary`, src/git.ts) -/

/-- The per-byte control test of `looksBinary`:
`byte < 32 && byte !== 9 && byte !== 10 && byte !== 13`. -/
def isControlByte (b : Nat) : Bool :=
  b < 32 && b ≠ 9 && b ≠ 10 && b ≠ 13

/-- `looksBinary` (src/git.ts).  The JS source compares
`nonTextCount / sampleSize > 0.1` in binary floating point; for integers
`0 ≤ nonTextCount ≤ sampleSize ≤ 1024` that float comparison coincides
exactly with the rational one, which is `10 * nonTextCount > sampleSize`
(the quotient is correctly rounded, `0.1` rounds to the same double as the
exact quotient when they are equal, and otherwise the two values differ by
at least `1/10240`, far more than one ulp at `0.1`). -/
def looksBinary (buffer : List Nat) : Bool :=
  if buffer = [] then false
  else if 0 ∈ buffer then true
  else
    let sample := buffer.take 1024
    let nonTextCount := sample.countP isControlByte
    decide (10 * nonTextCount > sample.length)

/-! ## Untracked-file reader (`readUntrackedFileContent`, src/git.ts) -/

/-- Outcome of the filesystem accesses performed for one untracked file.
`statFails` / `readFails` carry the reason string that the JS code derives
from the thrown value (`error instanceof Error ? error.message :
String(error)`). -/
inductive FsOutcome where
  | statFails (reason : JStr)
  | notRegularFile
  | readFails (reason : JStr)
  | fileBytes (bytes : List Nat)

/-- `readUntrackedFileContent` (src/git.ts): never throws; every branch
produces some placeholder or the decoded, trimmed file text. -/
def readUntrackedFileContent : FsOutcome → JStr
  | .statFails reason => str "[Untracked file unavailable: " ++ reason ++ str "]"
  | .notRegularFile => str "[Skipped non-regular file]"
  | .readFails reason => str "[Untracked file unavailable: " ++ reason ++ str "]"
  | .fileBytes bytes =>
    if looksBinary bytes then str "[Skipped binary file]"
    else
      let text := utf8DecodeR bytes
      if jsTrim text = [] then str "[Empty text file]" else jsTrim text

/-! ## The git command environment (`runGit`, src/git.ts) -/

/-- What one `git` invocation produces.  `exitError = some msg` models
`execFile` reporting an error (non-zero exit, timeout, or `maxBuffer`
exceeded) whose `error.message` is `msg`; `stdout` / `stderr` are the
captured streams. -/
structure GitOutcome where
  exitError : Option JStr
  stdout : JStr
  stderr : JStr

/-- The git backend: a map from the argument list passed to `runGit` (the
constant `-c core.quotepath=false` prefix and the repository working
directory are fixed per collection and left implicit) to the outcome. -/
abbrev GitEnv := List JStr → GitOutcome

/-- The error message `runGit` rejects with:
`git ${args.join(" ")} failed: ${details}` where `details` is the trimmed
stderr if non-empty, else the transport error message. -/
def renderGitError (args : List JStr) (o : GitOutcome) : JStr :=
  let details := if jsTrim o.stderr ≠ [] then jsTrim o.stderr
    else (match o.exitError with | some m => m | none => [])
  str "git " ++ jsJoin (str " ") args ++ str " failed: " ++ details

/-- `runGit` (src/git.ts): reject with the rendered error on failure, else
resolve with the trimmed stdout. -/
def runGit (git : GitEnv) (args : List JStr) : Except JStr JStr :=
  match (git args).exitError with
  | some _ => .error (renderGitError args (git args))
  | none => .ok (jsTrim (git args).stdout)

/-! ## Configuration and snapshot data model -/

/-- UI language (`types.ts`). -/
inductive UiLanguage where
  | zh
  | en
deriving DecidableEq

/-- The configuration fields consumed by the collector and the prompt
builder (`ExtensionConfig`, types.ts).  Fields irrelevant to this core
(provider, apiKey, …) are omitted. -/
structure ExtensionConfig where
  includeOnlyStaged : Bool
  maxChangedFiles : Nat
  truncateDiff : Bool
  maxDiffBytes : Nat
  systemPrompt : JStr
  ruleTemplate : JStr
  additionalRules : JStr
  language : UiLanguage

/-- `ChangeSnapshot` (types.ts). -/
structure ChangeSnapshot where
  status : JStr
  diff : JStr
  wasTruncated : Bool
  wasFileLimited : Bool
  totalChangedFiles : Nat
  includedChangedFiles : Nat

/-! ## The change collector (`collectRepositoryChanges`, src/git.ts) -/

/-- Argument list of the short-status fetch. -/
def statusCmd : List JStr := [str "status", str "--short"]

/-- Argument list of the staged name-list fetch. -/
def stagedNamesCmd : List JStr := [str "diff", str "--name-only", str "--staged"]

/-- Argument list of the unstaged name-list fetch. -/
def unstagedNamesCmd : List JStr := [str "diff", str "--name-only"]

/-- Argument list of the untracked name-list fetch. -/
def untrackedNamesCmd : List JStr :=
  [str "ls-files", str "--others", str "--exclude-standard"]

/-- Argument list of the per-file staged diff fetch. -/
def stagedDiffCmd (filePath : JStr) : List JStr :=
  [str "diff", str "--staged", str "--no-color", str "--no-ext-diff", str "--", filePath]

/-- Argument list of the per-file unstaged diff fetch. -/
def unstagedDiffCmd (filePath : JStr) : List JStr :=
  [str "diff", str "--no-color", str "--no-ext-diff", str "--", filePath]

/-- The staged-diff candidate section of one working-set file (body of the
per-file loop in `collectRepositoryChanges`): fetched only when the file is
in the staged list, included only when non-blank. -/
def stagedSectionStep (git : GitEnv) (stagedFiles : List JStr) (filePath : JStr) :
    Except JStr (List JStr) :=
  if filePath ∈ stagedFiles then
    match runGit git (stagedDiffCmd filePath) with
    | .error e => .error e
    | .ok stagedDiff =>
      .ok (if jsTrim stagedDiff ≠ [] then [str "# Staged diff\n" ++ stagedDiff] else [])
  else .ok []

/-- The unstaged-diff candidate section of one working-set file. -/
def unstagedSectionStep (git : GitEnv) (unstagedFiles : List JStr) (filePath : JStr) :
    Except JStr (List JStr) :=
  if filePath ∈ unstagedFiles then
    match runGit git (unstagedDiffCmd filePath) with
    | .error e => .error e
    | .ok unstagedDiff =>
      .ok (if jsTrim unstagedDiff ≠ [] then [str "# Unstaged diff\n" ++ unstagedDiff] else [])
  else .ok []

/-- The untracked-content candidate section of one working-set file (never
fails: disk errors were already downgraded to placeholder text). -/
def untrackedSectionOf (fs : JStr → FsOutcome) (untrackedFiles : List JStr)
    (filePath : JStr) : List JStr :=
  if filePath ∈ untrackedFiles then
    let untrackedContent := readUntrackedFileContent (fs filePath)
    if jsTrim untrackedContent ≠ [] then [str "# Untracked file content\n" ++ untrackedContent]
    else []
  else []

/-- All candidate sections of one working-set file, in source order; the
first git failure aborts. -/
def fileSections (git : GitEnv) (fs : JStr → FsOutcome)
    (stagedFiles unstagedFiles untrackedFiles : List JStr) (filePath : JStr) :
    Except JStr (List JStr) :=
  match stagedSectionStep git stagedFiles filePath with
  | .error e => .error e
  | .ok s1 =>
    match unstagedSectionStep git unstagedFiles filePath with
    | .error e => .error e
    | .ok s2 => .ok (s1 ++ s2 ++ untrackedSectionOf fs untrackedFiles filePath)

/-- The per-file loop: for each working-set file in order, push one
`## <path>` block when at least one section was produced; the first git
failure aborts the whole loop. -/
def collectFileBlocks (git : GitEnv) (fs : JStr → FsOutcome)
    (stagedFiles unstagedFiles untrackedFiles : List JStr) :
    List JStr → Except JStr (List JStr)
  | [] => .ok []
  | filePath :: rest =>
    match fileSections git fs stagedFiles unstagedFiles untrackedFiles filePath with
    | .error e => .error e
    | .ok sections =>
      match collectFileBlocks git fs stagedFiles unstagedFiles untrackedFiles rest with
      | .error e => .error e
      | .ok more =>
        .ok ((if sections ≠ [] then
          [str "## " ++ filePath ++ str "\n" ++ jsJoin (str "\n\n") sections] else []) ++ more)

/-- `collectRepositoryChanges` (src/git.ts).  The repository path is folded
into the two environments; `config.maxChangedFiles` is a natural number (the
configuration collaborator clamps it positive). -/
def collectRepositoryChanges (git : GitEnv) (fs : JStr → FsOutcome)
    (config : ExtensionConfig) : Except JStr ChangeSnapshot :=
  match runGit git statusCmd with
  | .error e => .error e
  | .ok status =>
  match runGit git stagedNamesCmd with
  | .error e => .error e
  | .ok stagedOut =>
  let stagedFiles := parseLines stagedOut
  match (if config.includeOnlyStaged then .ok []
    else Except.map parseLines (runGit git unstagedNamesCmd)) with
  | .error e => .error e
  | .ok unstagedFiles =>
  match (if config.includeOnlyStaged then .ok []
    else Except.map parseLines (runGit git untrackedNamesCmd)) with
  | .error e => .error e
  | .ok untrackedFiles =>
  let allChangedFiles := uniqueLines (stagedFiles ++ unstagedFiles ++ untrackedFiles)
  let limitedFiles := allChangedFiles.take config.maxChangedFiles
  let wasFileLimited := decide (limitedFiles.length < allChangedFiles.length)
  match collectFileBlocks git fs stagedFiles unstagedFiles untrackedFiles limitedFiles with
  | .error e => .error e
  | .ok diffParts =>
  let merged := jsJoin (str "\n\n") diffParts
  let trimmed := if config.truncateDiff then trimUtf8 merged config.maxDiffBytes
    else (merged, false)
  .ok {
    status := status
    diff := trimmed.1
    wasTruncated := trimmed.2
    wasFileLimited := wasFileLimited
    totalChangedFiles := allChangedFiles.length
    includedChangedFiles := limitedFiles.length
  }

/-! ## Convenience views of the collector inputs -/

/-- The staged file list as parsed by a successful collection. -/
def stagedNamesOf (git : GitEnv) : List JStr :=
  parseLines (jsTrim (git stagedNamesCmd).stdout)

/-- The unstaged file list as parsed by a successful collection. -/
def unstagedNamesOf (git : GitEnv) (config : ExtensionConfig) : List JStr :=
  if config.includeOnlyStaged then [] else parseLines (jsTrim (git unstagedNamesCmd).stdout)

/-- The untracked file list as parsed by a successful collection. -/
def untrackedNamesOf (git : GitEnv) (config : ExtensionConfig) : List JStr :=
  if config.includeOnlyStaged then [] else parseLines (jsTrim (git untrackedNamesCmd).stdout)

/-- The merged, deduplicated changed-file list of a successful collection. -/
def mergedFilesOf (git : GitEnv) (config : ExtensionConfig) : List JStr :=
  uniqueLines (stagedNamesOf git ++ unstagedNamesOf git config ++ untrackedNamesOf git config)

/-! ## The prompt builder (`buildPrompt`) -/

/-- `PromptPayload` (types.ts). -/
structure PromptPayload where
  systemPrompt : JStr
  userPrompt : JStr

/-- The fixed task statement section. -/
def taskSection : JStr :=
  str "Task: Create one detailed git commit message based on the repository changes."

/-- The rule-template section. -/
def rulesSection (config : ExtensionConfig) : JStr :=
  str "Rules:\n" ++ config.ruleTemplate

/-- The additional-rules section (pushed only when non-blank). -/
def additionalRulesSection (config : ExtensionConfig) : JStr :=
  str "Additional rules:\n" ++ jsTrim config.additionalRules

/-- The two fixed Chinese-language sections. -/
def zhLanguageSections : List JStr :=
  [str "语言要求：输出必须为简体中文。",
   str "输出约束:\n- 输出 1 条完整提交信息（可多行）\n- 第一行格式：<gitmoji> <type>(可选scope): <subject>\n- 后续每行描述一个具体改动点\n- 不要使用 markdown\n- 不要加引号\n- 冒号后必须有主题内容\n- 主题必须具体，不能只写“添加/修改/更新”等泛化词"]

/-- The two fixed English-language sections. -/
def enLanguageSections : List JStr :=
  [str "Language requirement: Output must be in English.",
   str "Output constraints:\n- Return one complete commit message (multiple lines allowed)\n- First line format: <gitmoji> <type>(optional-scope): <subject>\n- Each following line should describe one concrete change\n- Do not use markdown\n- Do not wrap in quotes\n- Subject must exist after \":\"\n- Subject must be specific and not generic words like \"update\" or \"changes\""]

/-- The git-status section (pushed only when the status is non-blank). -/
def statusSection (snapshot : ChangeSnapshot) : JStr :=
  str "Git status (short):\n" ++ snapshot.status

/-- The diff section (always pushed; placeholder when the diff is empty). -/
def diffSection (snapshot : ChangeSnapshot) : JStr :=
  str "Git diff:\n" ++ (if snapshot.diff = [] then str "(no diff provided)" else snapshot.diff)

/-- The file-limit provenance note. -/
def fileLimitNote (snapshot : ChangeSnapshot) : JStr :=
  str "Note: Changed files were limited to " ++ natStr snapshot.includedChangedFiles ++
    str "/" ++ natStr snapshot.totalChangedFiles ++ str " by maxChangedFiles."

/-- The truncation provenance note. -/
def truncationNote : JStr :=
  str "Note: Diff content was truncated for performance limits."

/-- The ordered section list pushed by `buildPrompt`. -/
def buildPromptSections (snapshot : ChangeSnapshot) (config : ExtensionConfig) : List JStr :=
  [taskSection, rulesSection config] ++
  (if jsTrim config.additionalRules ≠ [] then [additionalRulesSection config] else []) ++
  (if config.language = UiLanguage.zh then zhLanguageSections else enLanguageSections) ++
  (if jsTrim snapshot.status ≠ [] then [statusSection snapshot] else []) ++
  [diffSection snapshot] ++
  (if snapshot.wasFileLimited then [fileLimitNote snapshot] else []) ++
  (if snapshot.wasTruncated then [truncationNote] else [])

/-- `buildPrompt` (promptBuilder): join the sections with blank lines and copy
the system prompt verbatim from the configuration. -/
def buildPrompt (snapshot : ChangeSnapshot) (config : ExtensionConfig) : PromptPayload :=
  { systemPrompt := config.systemPrompt
    userPrompt := jsJoin (str "\n\n") (buildPromptSections snapshot config) }

/-- Reference first-seen deduplication, written the way the spec describes
the merge ("each distinct path exactly once, in first-seen order"). -/
def dedupFirstSeen : List JStr → List JStr
  | [] => []
  | x :: xs => x :: dedupFirstSeen (xs.filter (fun y => decide (y ≠ x)))
termination_by l => l.length
decreasing_by
  simp only [List.length_cons]
  exact Nat.lt_succ_of_le (List.length_filter_le _ _)

/-- All git invocations a successful collection performs, each required to
succeed: the status fetch, the name-list fetches actually issued under the
configuration, and the per-file staged/unstaged diff fetches for each
working-set file. -/
def collectionCommandsOk (git : GitEnv) (config : ExtensionConfig) : Prop :=
  (git statusCmd).exitError = none ∧
  (git stagedNamesCmd).exitError = none ∧
  (config.includeOnlyStaged = false →
    (git unstagedNamesCmd).exitError = none ∧ (git untrackedNamesCmd).exitError = none) ∧
  ∀ f ∈ (mergedFilesOf git config).take config.maxChangedFiles,
    (f ∈ stagedNamesOf git → (git (stagedDiffCmd f)).exitError = none) ∧
    (f ∈ unstagedNamesOf git config → (git (unstagedDiffCmd f)).exitError = none)

/-! ## Concrete sample environments -/

/-- A git backend where every command succeeds with stdout `"a"`. -/
def wGitOk : GitEnv := fun _ => { exitError := none, stdout := str "a", stderr := [] }

/-- A git backend where every command fails. -/
def wGitFail : GitEnv :=
  fun _ => { exitError := some (str "spawn timeout"), stdout := [], stderr := str "fatal: bad" }

/-- A filesystem where every untracked path is a directory. -/
def wFs : JStr → FsOutcome := fun _ => .notRegularFile

/-- A sample configuration with truncation disabled. -/
def wConfig : ExtensionConfig :=
  { includeOnlyStaged := false, maxChangedFiles := 10, truncateDiff := false,
    maxDiffBytes := 4096, systemPrompt := str "sys", ruleTemplate := str "rule",
    additionalRules := [], language := .en }

/-- The snapshot the sample environments produce. -/
def wSnapshot : ChangeSnapshot :=
  ((collectRepositoryChanges wGitOk wFs wConfig).toOption).getD
    ⟨[], [], false, false, 0, 0⟩

/-- The text classifier as the specification words it: empty is text, a NUL
byte means binary, otherwise the sample is the first `min(length, 1024)`
bytes and the buffer is binary exactly when the fraction of control bytes
(value < 32 outside {9, 10, 13}) in the sample strictly exceeds 0.10 — for a
sample of `n` bytes with `k` control bytes, `k / n > 1/10 ↔ 10 * k > n`. -/
def looksBinarySpec (buffer : List Nat) : Bool :=
  if buffer = [] then false
  else if 0 ∈ buffer then true
  else
    let sample := buffer.take (min buffer.length 1024)
    decide (10 * sample.countP isControlByte > sample.length)

/-- An all-empty snapshot. -/
def wSnapshotEmpty : ChangeSnapshot := ⟨[], [], false, false, 0, 0⟩

/-- The sample configuration with truncation enabled. -/
def wConfigTrunc : ExtensionConfig :=
  { includeOnlyStaged := false, maxChangedFiles := 10, truncateDiff := true,
    maxDiffBytes := 4096, systemPrompt := str "sys", ruleTemplate := str "rule",
    additionalRules := [], language := .en }

/-- The snapshot the sample environments produce with truncation enabled. -/
def wSnapshotTrunc : ChangeSnapshot :=
  ((collectRepositoryChanges wGitOk wFs wConfigTrunc).toOption).getD
    ⟨[], [], false, false, 0, 0⟩

/-- The staged per-file diff output of the over-budget scenario: 4076 ASCII
bytes followed by a three-byte and a one-byte character, so that a 4096-byte
cut of the final merged diff lands one byte into the `€`. -/
def cexDiffOut : JStr := List.replicate 4076 'a' ++ str "€z"

/-- The git backend of the over-budget scenario. -/
def cexGit : GitEnv := fun args =>
  if args = stagedDiffCmd (str "f") then
    { exitError := none, stdout := cexDiffOut, stderr := [] }
  else if args = stagedNamesCmd then
    { exitError := none, stdout := str "f", stderr := [] }
  else { exitError := none, stdout := [], stderr := [] }

/-- The configuration of the over-budget scenario: truncation enabled with
the minimum budget the claim allows. -/
def cexConfig : ExtensionConfig :=
  { includeOnlyStaged := true, maxChangedFiles := 5, truncateDiff := true,
    maxDiffBytes := 4096, systemPrompt := [], ruleTemplate := [],
    additionalRules := [], language := .en }

/-- The ASCII part of the merged diff (4095 UTF-8 bytes). -/
def cexAsciiPrefix : JStr := str "## f\n# Staged diff\n" ++ List.replicate 4076 'a'

/-- The merged diff of the over-budget scenario (4099 UTF-8 bytes). -/
def cexMerged : JStr := str "## f\n# Staged diff\n" ++ cexDiffOut

/-- The snapshot diff of the over-budget scenario: the clean 4095-byte
prefix, the U+FFFD for the split `€`, and the marker — 4142 bytes in all. -/
def cexDiffText : JStr := (cexAsciiPrefix ++ [replChar]) ++ truncationMarker

/-- The snapshot of the over-budget scenario. -/
def cexSnapshot : ChangeSnapshot :=
  { status := [], diff := cexDiffText, wasTruncated := true,
    wasFileLimited := false, totalChangedFiles := 1, includedChangedFiles := 1 }

/-! ## Basic lemmas about trimming, line parsing and deduplication -/

theorem dropWhile_head_false {p : Char → Bool} {l r : JStr} {a : Char}
    (h : l.dropWhile p = a :: r) : p a = false := by
  have hne : l.dropWhile p ≠ [] := by simp [h]
  have := List.head_dropWhile_not p l hne
  have ha : (l.dropWhile p).head hne = a := by simp [h]
  rw [ha] at this
  simpa using this

theorem dropWhile_dropWhile (p : Char → Bool) (l : JStr) :
    (l.dropWhile p).dropWhile p = l.dropWhile p := by
  cases h : l.dropWhile p with
  | nil => simp
  | cons a r =>
    have := dropWhile_head_false h
    rw [List.dropWhile_cons_of_neg (by simp [this])]

theorem trimRight_append (s : JStr) : ∃ t, s = jsTrimRight s ++ t := by
  refine ⟨(s.reverse.takeWhile isJsWhitespace).reverse, ?_⟩
  unfold jsTrimRight
  rw [← List.reverse_append, List.takeWhile_append_dropWhile, List.reverse_reverse]

theorem dropWhile_trimRight_of_dropWhile_eq {m : JStr}
    (h : m.dropWhile isJsWhitespace = m) :
    (jsTrimRight m).dropWhile isJsWhitespace = jsTrimRight m := by
  cases htr : jsTrimRight m with
  | nil => simp
  | cons a r =>
    obtain ⟨t, ht⟩ := trimRight_append m
    rw [htr] at ht
    have hm : m.dropWhile isJsWhitespace = a :: (r ++ t) := by rw [h, ht]; simp
    have := dropWhile_head_false hm
    rw [List.dropWhile_cons_of_neg (by simp [this])]

theorem jsTrim_idem (s : JStr) : jsTrim (jsTrim s) = jsTrim s := by
  unfold jsTrim
  rw [dropWhile_trimRight_of_dropWhile_eq (dropWhile_dropWhile isJsWhitespace s)]
  unfold jsTrimRight
  rw [List.reverse_reverse, dropWhile_dropWhile]

theorem mem_parseLines {raw x : JStr} (h : x ∈ parseLines raw) :
    x ≠ [] ∧ jsTrim x = x := by
  unfold parseLines at h
  rw [List.mem_filter] at h
  obtain ⟨hmem, hne⟩ := h
  rw [List.mem_map] at hmem
  obtain ⟨y, _, rfl⟩ := hmem
  exact ⟨by simpa using hne, jsTrim_idem y⟩

theorem mem_uniqueLinesGo {seen : List JStr} {l : List JStr} {x : JStr} :
    x ∈ uniqueLinesGo seen l ↔ x ∈ l ∧ x ∉ seen := by
  induction l generalizing seen with
  | nil => simp [uniqueLinesGo]
  | cons a rest ih =>
    unfold uniqueLinesGo
    by_cases ha : a ∈ seen
    · rw [if_pos ha, ih]
      constructor
      · rintro ⟨h1, h2⟩
        exact ⟨List.mem_cons_of_mem a h1, h2⟩
      · rintro ⟨h1, h2⟩
        rcases List.mem_cons.1 h1 with rfl | h1
        · exact absurd ha h2
        · exact ⟨h1, h2⟩
    · rw [if_neg ha]
      constructor
      · intro hx
        rcases List.mem_cons.1 hx with rfl | hx
        · exact ⟨List.mem_cons_self _ _, ha⟩
        · obtain ⟨h1, h2⟩ := ih.1 hx
          exact ⟨List.mem_cons_of_mem _ h1, fun hs => h2 (List.mem_cons_of_mem _ hs)⟩
      · rintro ⟨hx, hs⟩
        rcases List.mem_cons.1 hx with rfl | hx
        · exact List.mem_cons_self _ _
        · by_cases hxa : x = a
          · subst hxa; exact List.mem_cons_self _ _
          · refine List.mem_cons_of_mem _ (ih.2 ⟨hx, ?_⟩)
            intro hmem
            rcases List.mem_cons.1 hmem with h | h
            · exact hxa h
            · exact hs h

theorem mem_uniqueLines {l : List JStr} {x : JStr} :
    x ∈ uniqueLines l ↔ x ∈ l := by
  unfold uniqueLines
  rw [mem_uniqueLinesGo]
  simp

theorem nodup_uniqueLinesGo (seen : List JStr) (l : List JStr) :
    (uniqueLinesGo seen l).Nodup := by
  induction l generalizing seen with
  | nil => simp [uniqueLinesGo]
  | cons a rest ih =>
    unfold uniqueLinesGo
    by_cases ha : a ∈ seen
    · rw [if_pos ha]; exact ih seen
    · rw [if_neg ha]
      refine List.nodup_cons.2 ⟨?_, ih (a :: seen)⟩
      intro hmem
      exact (mem_uniqueLinesGo.1 hmem).2 (List.mem_cons_self a seen)

theorem nodup_uniqueLines (l : List JStr) : (uniqueLines l).Nodup :=
  nodup_uniqueLinesGo [] l

theorem sublist_uniqueLinesGo (seen : List JStr) (l : List JStr) :
    (uniqueLinesGo seen l).Sublist l := by
  induction l generalizing seen with
  | nil => simp [uniqueLinesGo]
  | cons a rest ih =>
    unfold uniqueLinesGo
    by_cases ha : a ∈ seen
    · rw [if_pos ha]; exact (ih seen).cons a
    · rw [if_neg ha]; exact (ih (a :: seen)).cons₂ a

theorem sublist_uniqueLines (l : List JStr) : (uniqueLines l).Sublist l :=
  sublist_uniqueLinesGo [] l

theorem uniqueLinesGo_eq_dedupFirstSeen_aux (n : Nat) :
    ∀ (seen l : List JStr), l.length ≤ n →
      uniqueLinesGo seen l = dedupFirstSeen (l.filter (fun y => decide (y ∉ seen))) := by
  induction n with
  | zero =>
    intro seen l hl
    cases l with
    | nil => simp [uniqueLinesGo, dedupFirstSeen]
    | cons a rest => simp at hl
  | succ n ih =>
    intro seen l hl
    cases l with
    | nil => simp [uniqueLinesGo, dedupFirstSeen]
    | cons a rest =>
      have hrest : rest.length ≤ n := by
        simp only [List.length_cons] at hl
        omega
      by_cases ha : a ∈ seen
      · rw [uniqueLinesGo, if_pos ha, List.filter_cons_of_neg (by simpa using ha)]
        exact ih seen rest hrest
      · rw [uniqueLinesGo, if_neg ha, List.filter_cons_of_pos (by simpa using ha),
          dedupFirstSeen, List.filter_filter]
        have hpred : ∀ y : JStr,
            (decide (y ≠ a) && decide (y ∉ seen)) = decide (y ∉ a :: seen) := by
          intro y
          by_cases h1 : y ∈ seen <;> by_cases h2 : y = a <;>
            simp [h1, h2]
        rw [List.filter_congr (fun y _ => hpred y)]
        rw [ih (a :: seen) rest hrest]

theorem uniqueLinesGo_eq_dedupFirstSeen (seen : List JStr) (l : List JStr) :
    uniqueLinesGo seen l = dedupFirstSeen (l.filter (fun y => decide (y ∉ seen))) :=
  uniqueLinesGo_eq_dedupFirstSeen_aux l.length seen l (Nat.le_refl _)

theorem uniqueLines_eq_dedupFirstSeen (l : List JStr) :
    uniqueLines l = dedupFirstSeen l := by
  rw [uniqueLines, uniqueLinesGo_eq_dedupFirstSeen]
  congr 1
  exact List.filter_eq_self.2 (by simp)

/-! ## `Except` plumbing and `runGit` lemmas -/

theorem except_bind_ok {α β ε : Type} (x : α) (f : α → Except ε β) :
    (Except.ok x >>= f) = f x := rfl

theorem except_bind_err {α β ε : Type} (e : ε) (f : α → Except ε β) :
    ((Except.error e : Except ε α) >>= f) = Except.error e := rfl

theorem except_map_ok {α β ε : Type} (f : α → β) (x : α) :
    (f <$> (Except.ok x : Except ε α)) = Except.ok (f x) := rfl

theorem except_map_err {α β ε : Type} (f : α → β) (e : ε) :
    (f <$> (Except.error e : Except ε α)) = Except.error e := rfl

theorem runGit_ok {git : GitEnv} {args : List JStr} {v : JStr} :
    runGit git args = .ok v ↔ (git args).exitError = none ∧ v = jsTrim (git args).stdout := by
  unfold runGit
  cases h : (git args).exitError <;> simp [h, eq_comm]

theorem runGit_error {git : GitEnv} {args : List JStr} {e : JStr} :
    runGit git args = .error e ↔
      (git args).exitError.isSome ∧ e = renderGitError args (git args) := by
  unfold runGit
  cases h : (git args).exitError <;> simp [h, eq_comm]

theorem except_map_ok_eq {α β ε : Type} (f : α → β) (x : α) :
    Except.map f (Except.ok x : Except ε α) = Except.ok (f x) := rfl

theorem except_map_err_eq {α β ε : Type} (f : α → β) (e : ε) :
    Except.map f (Except.error e : Except ε α) = Except.error e := rfl

theorem stagedSectionStep_error {git : GitEnv} {st : List JStr} {f e : JStr}
    (h : stagedSectionStep git st f = .error e) :
    ∃ args, (git args).exitError.isSome ∧ e = renderGitError args (git args) := by
  unfold stagedSectionStep at h
  by_cases hc : f ∈ st
  · rw [if_pos hc] at h
    cases hg : runGit git (stagedDiffCmd f) with
    | error e1 =>
      rw [hg] at h
      cases h
      obtain ⟨hs, he⟩ := runGit_error.1 hg
      exact ⟨stagedDiffCmd f, hs, he⟩
    | ok d => rw [hg] at h; cases h
  · rw [if_neg hc] at h; cases h

theorem stagedSectionStep_ok {git : GitEnv} {st : List JStr} {f : JStr} {v : List JStr}
    (hv : stagedSectionStep git st f = .ok v)
    (hc : f ∈ st) : (git (stagedDiffCmd f)).exitError = none := by
  unfold stagedSectionStep at hv
  rw [if_pos hc] at hv
  cases hg : runGit git (stagedDiffCmd f) with
  | error e1 => rw [hg] at hv; cases hv
  | ok d => exact (runGit_ok.1 hg).1

theorem unstagedSectionStep_error {git : GitEnv} {un : List JStr} {f e : JStr}
    (h : unstagedSectionStep git un f = .error e) :
    ∃ args, (git args).exitError.isSome ∧ e = renderGitError args (git args) := by
  unfold unstagedSectionStep at h
  by_cases hc : f ∈ un
  · rw [if_pos hc] at h
    cases hg : runGit git (unstagedDiffCmd f) with
    | error e1 =>
      rw [hg] at h
      cases h
      obtain ⟨hs, he⟩ := runGit_error.1 hg
      exact ⟨unstagedDiffCmd f, hs, he⟩
    | ok d => rw [hg] at h; cases h
  · rw [if_neg hc] at h; cases h

theorem unstagedSectionStep_ok {git : GitEnv} {un : List JStr} {f : JStr} {v : List JStr}
    (hv : unstagedSectionStep git un f = .ok v)
    (hc : f ∈ un) : (git (unstagedDiffCmd f)).exitError = none := by
  unfold unstagedSectionStep at hv
  rw [if_pos hc] at hv
  cases hg : runGit git (unstagedDiffCmd f) with
  | error e1 => rw [hg] at hv; cases hv
  | ok d => exact (runGit_ok.1 hg).1

theorem fileSections_error {git : GitEnv} {fs : JStr → FsOutcome}
    {st un ut : List JStr} {f e : JStr}
    (h : fileSections git fs st un ut f = .error e) :
    ∃ args, (git args).exitError.isSome ∧ e = renderGitError args (git args) := by
  unfold fileSections at h
  cases h1 : stagedSectionStep git st f with
  | error e1 =>
    rw [h1] at h
    cases h
    exact stagedSectionStep_error h1
  | ok s1 =>
    rw [h1] at h
    cases h2 : unstagedSectionStep git un f with
    | error e2 =>
      rw [h2] at h
      cases h
      exact unstagedSectionStep_error h2
    | ok s2 => rw [h2] at h; cases h

theorem fileSections_ok {git : GitEnv} {fs : JStr → FsOutcome}
    {st un ut : List JStr} {f : JStr} {v : List JStr}
    (h : fileSections git fs st un ut f = .ok v) :
    (f ∈ st → (git (stagedDiffCmd f)).exitError = none) ∧
    (f ∈ un → (git (unstagedDiffCmd f)).exitError = none) := by
  unfold fileSections at h
  cases h1 : stagedSectionStep git st f with
  | error e1 => rw [h1] at h; cases h
  | ok s1 =>
    rw [h1] at h
    cases h2 : unstagedSectionStep git un f with
    | error e2 => rw [h2] at h; cases h
    | ok s2 =>
      exact ⟨fun hc => stagedSectionStep_ok h1 hc, fun hc => unstagedSectionStep_ok h2 hc⟩

theorem collectFileBlocks_error {git : GitEnv} {fs : JStr → FsOutcome}
    {st un ut : List JStr} {e : JStr} :
    ∀ {files : List JStr}, collectFileBlocks git fs st un ut files = .error e →
    ∃ args, (git args).exitError.isSome ∧ e = renderGitError args (git args) := by
  intro files
  induction files with
  | nil => intro h; cases h
  | cons f rest ih =>
    intro h
    unfold collectFileBlocks at h
    cases h1 : fileSections git fs st un ut f with
    | error e1 =>
      rw [h1] at h
      cases h
      exact fileSections_error h1
    | ok sections =>
      rw [h1] at h
      cases h2 : collectFileBlocks git fs st un ut rest with
      | error e2 =>
        rw [h2] at h
        cases h
        exact ih h2
      | ok more => rw [h2] at h; cases h

theorem collectFileBlocks_ok {git : GitEnv} {fs : JStr → FsOutcome}
    {st un ut : List JStr} :
    ∀ {files : List JStr} {v : List JStr},
      collectFileBlocks git fs st un ut files = .ok v →
    ∀ f ∈ files,
      (f ∈ st → (git (stagedDiffCmd f)).exitError = none) ∧
      (f ∈ un → (git (unstagedDiffCmd f)).exitError = none) := by
  intro files
  induction files with
  | nil => intro v _ f hf; cases hf
  | cons g rest ih =>
    intro v h f hf
    unfold collectFileBlocks at h
    cases h1 : fileSections git fs st un ut g with
    | error e1 => rw [h1] at h; cases h
    | ok sections =>
      rw [h1] at h
      cases h2 : collectFileBlocks git fs st un ut rest with
      | error e2 => rw [h2] at h; cases h
      | ok more =>
        rcases List.mem_cons.1 hf with rfl | hf
        · exact fileSections_ok h1
        · exact ih h2 f hf

theorem collect_error {git : GitEnv} {fs : JStr → FsOutcome}
    {config : ExtensionConfig} {e : JStr}
    (h : collectRepositoryChanges git fs config = .error e) :
    ∃ args, (git args).exitError.isSome ∧ e = renderGitError args (git args) := by
  unfold collectRepositoryChanges at h
  cases h0 : runGit git statusCmd with
  | error e0 =>
    rw [h0] at h
    dsimp only at h
    cases h
    exact ⟨statusCmd, runGit_error.1 h0⟩
  | ok status =>
  rw [h0] at h
  dsimp only at h
  cases h1 : runGit git stagedNamesCmd with
  | error e1 =>
    rw [h1] at h
    dsimp only at h
    cases h
    exact ⟨stagedNamesCmd, runGit_error.1 h1⟩
  | ok stagedOut =>
  rw [h1] at h
  dsimp only at h
  by_cases hio : config.includeOnlyStaged
  · rw [if_pos hio, if_pos hio] at h
    dsimp only at h
    cases h4 : collectFileBlocks git fs (parseLines stagedOut) [] []
        ((uniqueLines (parseLines stagedOut ++ [] ++ [])).take config.maxChangedFiles) with
    | error e4 =>
      rw [h4] at h
      dsimp only at h
      cases h
      exact collectFileBlocks_error h4
    | ok diffParts =>
      rw [h4] at h
      dsimp only at h
      cases h
  · rw [if_neg hio, if_neg hio] at h
    cases h2 : runGit git unstagedNamesCmd with
    | error e2 =>
      rw [h2, except_map_err_eq] at h
      dsimp only at h
      cases h
      exact ⟨unstagedNamesCmd, runGit_error.1 h2⟩
    | ok unstagedOut =>
    rw [h2, except_map_ok_eq] at h
    dsimp only at h
    cases h3 : runGit git untrackedNamesCmd with
    | error e3 =>
      rw [h3, except_map_err_eq] at h
      dsimp only at h
      cases h
      exact ⟨untrackedNamesCmd, runGit_error.1 h3⟩
    | ok untrackedOut =>
    rw [h3, except_map_ok_eq] at h
    dsimp only at h
    cases h4 : collectFileBlocks git fs (parseLines stagedOut) (parseLines unstagedOut)
        (parseLines untrackedOut)
        ((uniqueLines (parseLines stagedOut ++ parseLines unstagedOut ++ parseLines untrackedOut)).take
          config.maxChangedFiles) with
    | error e4 =>
      rw [h4] at h
      dsimp only at h
      cases h
      exact collectFileBlocks_error h4
    | ok diffParts =>
      rw [h4] at h
      dsimp only at h
      cases h

theorem collect_ok_spec {git : GitEnv} {fs : JStr → FsOutcome}
    {config : ExtensionConfig} {s : ChangeSnapshot}
    (h : collectRepositoryChanges git fs config = .ok s) :
    s.status = jsTrim (git statusCmd).stdout ∧
    s.totalChangedFiles = (mergedFilesOf git config).length ∧
    s.includedChangedFiles = ((mergedFilesOf git config).take config.maxChangedFiles).length ∧
    s.wasFileLimited =
      decide (((mergedFilesOf git config).take config.maxChangedFiles).length <
        (mergedFilesOf git config).length) ∧
    collectionCommandsOk git config ∧
    ∃ merged,
      s.diff = (if config.truncateDiff then trimUtf8 merged config.maxDiffBytes
        else (merged, false)).1 ∧
      s.wasTruncated = (if config.truncateDiff then trimUtf8 merged config.maxDiffBytes
        else (merged, false)).2 := by
  unfold collectRepositoryChanges at h
  cases h0 : runGit git statusCmd with
  | error e0 => rw [h0] at h; dsimp only at h; cases h
  | ok status =>
  rw [h0] at h
  dsimp only at h
  cases h1 : runGit git stagedNamesCmd with
  | error e1 => rw [h1] at h; dsimp only at h; cases h
  | ok stagedOut =>
  rw [h1] at h
  dsimp only at h
  by_cases hio : config.includeOnlyStaged
  · rw [if_pos hio, if_pos hio] at h
    dsimp only at h
    have hm : mergedFilesOf git config = uniqueLines (parseLines stagedOut ++ [] ++ []) := by
      rw [mergedFilesOf, stagedNamesOf, unstagedNamesOf, untrackedNamesOf,
        if_pos hio, if_pos hio, (runGit_ok.1 h1).2]
    cases h4 : collectFileBlocks git fs (parseLines stagedOut) [] []
        ((uniqueLines (parseLines stagedOut ++ [] ++ [])).take config.maxChangedFiles) with
    | error e4 => rw [h4] at h; dsimp only at h; cases h
    | ok diffParts =>
      rw [h4] at h
      dsimp only at h
      cases h
      refine ⟨(runGit_ok.1 h0).2, by rw [hm], by rw [hm], by rw [hm], ?_, ?_⟩
      · refine ⟨(runGit_ok.1 h0).1, (runGit_ok.1 h1).1, (by intro hf; rw [hf] at hio; cases hio), ?_⟩
        intro f hf
        rw [hm] at hf
        have := collectFileBlocks_ok h4 f hf
        constructor
        · intro hmem
          exact this.1 (by rwa [stagedNamesOf, ← (runGit_ok.1 h1).2] at hmem)
        · intro hmem
          rw [unstagedNamesOf, if_pos hio] at hmem
          cases hmem
      · exact ⟨jsJoin (str "\n\n") diffParts, rfl, rfl⟩
  · rw [if_neg hio, if_neg hio] at h
    cases h2 : runGit git unstagedNamesCmd with
    | error e2 => rw [h2, except_map_err_eq] at h; dsimp only at h; cases h
    | ok unstagedOut =>
    rw [h2, except_map_ok_eq] at h
    dsimp only at h
    cases h3 : runGit git untrackedNamesCmd with
    | error e3 => rw [h3, except_map_err_eq] at h; dsimp only at h; cases h
    | ok untrackedOut =>
    rw [h3, except_map_ok_eq] at h
    dsimp only at h
    have hio' : config.includeOnlyStaged = false := by
      cases hx : config.includeOnlyStaged
      · rfl
      · exact absurd hx hio
    have hm : mergedFilesOf git config =
        uniqueLines (parseLines stagedOut ++ parseLines unstagedOut ++ parseLines untrackedOut) := by
      rw [mergedFilesOf, stagedNamesOf, unstagedNamesOf, untrackedNamesOf,
        if_neg hio, if_neg hio, (runGit_ok.1 h1).2, (runGit_ok.1 h2).2, (runGit_ok.1 h3).2]
    cases h4 : collectFileBlocks git fs (parseLines stagedOut) (parseLines unstagedOut)
        (parseLines untrackedOut)
        ((uniqueLines (parseLines stagedOut ++ parseLines unstagedOut ++ parseLines untrackedOut)).take
          config.maxChangedFiles) with
    | error e4 => rw [h4] at h; dsimp only at h; cases h
    | ok diffParts =>
      rw [h4] at h
      dsimp only at h
      cases h
      refine ⟨(runGit_ok.1 h0).2, by rw [hm], by rw [hm], by rw [hm], ?_, ?_⟩
      · refine ⟨(runGit_ok.1 h0).1, (runGit_ok.1 h1).1,
          fun _ => ⟨(runGit_ok.1 h2).1, (runGit_ok.1 h3).1⟩, ?_⟩
        intro f hf
        rw [hm] at hf
        have := collectFileBlocks_ok h4 f hf
        constructor
        · intro hmem
          exact this.1 (by rwa [stagedNamesOf, ← (runGit_ok.1 h1).2] at hmem)
        · intro hmem
          rw [unstagedNamesOf, if_neg hio] at hmem
          exact this.2 (by rwa [← (runGit_ok.1 h2).2] at hmem)
      · exact ⟨jsJoin (str "\n\n") diffParts, rfl, rfl⟩

/-! ## Claim theorems -/

theorem countP_eq_one_of_nodup_mem {l : List JStr} {x : JStr}
    (hn : l.Nodup) (hm : x ∈ l) :
    l.countP (fun y => decide (y = x)) = 1 := by
  induction l with
  | nil => cases hm
  | cons a t ih =>
    rw [List.countP_cons]
    rcases List.mem_cons.1 hm with rfl | hm2
    · have hx : x ∉ t := (List.nodup_cons.1 hn).1
      have hz : t.countP (fun y => decide (y = x)) = 0 :=
        List.countP_eq_zero.2 (fun y hy => by
          simp only [decide_eq_true_iff]
          rintro rfl
          exact hx hy)
      simp [hz]
    · have ha : a ≠ x := by
        rintro rfl
        exact (List.nodup_cons.1 hn).1 hm2
      rw [ih (List.nodup_cons.1 hn).2 hm2]
      simp [ha]

/-- C3: for any three file-path lists (staged, unstaged, untracked), possibly
containing overlapping paths, the merged list computed by
`collectRepositoryChanges` contains each distinct path exactly once (count 1),
in first-seen order across the concatenation staged → unstaged → untracked
(it equals the first-seen deduplication and is a subsequence of the
concatenation), with paths compared by exact string equality; and
`totalChangedFiles` equals the length of this merged list. -/
theorem merged_list_first_seen_dedup :
    (∀ staged unstaged untracked : List JStr,
      uniqueLines (staged ++ unstaged ++ untracked) =
        dedupFirstSeen (staged ++ unstaged ++ untracked) ∧
      (uniqueLines (staged ++ unstaged ++ untracked)).Sublist
        (staged ++ unstaged ++ untracked) ∧
      ∀ x ∈ staged ++ unstaged ++ untracked,
        (uniqueLines (staged ++ unstaged ++ untracked)).countP
          (fun y => decide (y = x)) = 1) ∧
    (∀ git fs config s, collectRepositoryChanges git fs config = .ok s →
      s.totalChangedFiles = (mergedFilesOf git config).length) := by
  constructor
  · intro staged unstaged untracked
    refine ⟨uniqueLines_eq_dedupFirstSeen _, sublist_uniqueLines _, ?_⟩
    intro x hx
    exact countP_eq_one_of_nodup_mem (nodup_uniqueLines _) (mem_uniqueLines.2 hx)
  · intro git fs config s h
    exact (collect_ok_spec h).2.1

/-- Witness for C3 at concrete inputs. -/
theorem merged_list_first_seen_dedup_witness :
    (uniqueLines ([str "a"] ++ [str "a", str "b"] ++ [str "b"])).countP
      (fun y => decide (y = str "a")) = 1 ∧
    wSnapshot.totalChangedFiles = (mergedFilesOf wGitOk wConfig).length :=
  ⟨(merged_list_first_seen_dedup.1 [str "a"] [str "a", str "b"] [str "b"]).2.2
      (str "a") (by decide),
   merged_list_first_seen_dedup.2 wGitOk wFs wConfig wSnapshot (by rfl)⟩

/-- C4: for every snapshot a successful collection returns,
`includedChangedFiles ≤ totalChangedFiles`; `wasFileLimited` holds iff
`includedChangedFiles < totalChangedFiles`; the working set is the prefix of
at most `maxChangedFiles` entries of the merged deduplicated list, and
`includedChangedFiles` is that prefix's length — independent of which
selected paths render a visible diff block (the filesystem and per-file diff
outputs do not appear in these equalities). -/
theorem snapshot_file_budget (git : GitEnv) (fs : JStr → FsOutcome)
    (config : ExtensionConfig) (s : ChangeSnapshot)
    (h : collectRepositoryChanges git fs config = .ok s) :
    s.includedChangedFiles ≤ s.totalChangedFiles ∧
    (s.wasFileLimited = true ↔ s.includedChangedFiles < s.totalChangedFiles) ∧
    s.totalChangedFiles = (mergedFilesOf git config).length ∧
    s.includedChangedFiles =
      ((mergedFilesOf git config).take config.maxChangedFiles).length := by
  obtain ⟨-, htot, hinc, hlim, -, -⟩ := collect_ok_spec h
  refine ⟨?_, ?_, htot, hinc⟩
  · rw [htot, hinc, List.length_take]
    exact Nat.min_le_right _ _
  · rw [hlim, htot, hinc]
    exact decide_eq_true_iff

/-- Witness for C4 at a concrete successful collection. -/
theorem snapshot_file_budget_witness :
    wSnapshot.includedChangedFiles ≤ wSnapshot.totalChangedFiles ∧
    (wSnapshot.wasFileLimited = true ↔
      wSnapshot.includedChangedFiles < wSnapshot.totalChangedFiles) :=
  ⟨(snapshot_file_budget wGitOk wFs wConfig wSnapshot (by rfl)).1,
   (snapshot_file_budget wGitOk wFs wConfig wSnapshot (by rfl)).2.1⟩

/-- C10: every entry of a parsed git name list — and hence every path of the
merged changed-file list — is a non-empty string with no leading or trailing
whitespace (`jsTrim` fixes it), because `parseLines` trims every line and
drops empty ones before merging. -/
theorem parsed_paths_trimmed_nonempty :
    (∀ raw : JStr, ∀ x ∈ parseLines raw, x ≠ [] ∧ jsTrim x = x) ∧
    (∀ git config, ∀ x ∈ mergedFilesOf git config, x ≠ [] ∧ jsTrim x = x) := by
  constructor
  · intro raw x hx
    exact mem_parseLines hx
  · intro git config x hx
    rw [mergedFilesOf] at hx
    have hx' := mem_uniqueLines.1 hx
    rcases List.mem_append.1 hx' with h | h
    · rcases List.mem_append.1 h with h | h
      · rw [stagedNamesOf] at h
        exact mem_parseLines h
      · rw [unstagedNamesOf] at h
        by_cases hio : config.includeOnlyStaged
        · rw [if_pos hio] at h; cases h
        · rw [if_neg hio] at h; exact mem_parseLines h
    · rw [untrackedNamesOf] at h
      by_cases hio : config.includeOnlyStaged
      · rw [if_pos hio] at h; cases h
      · rw [if_neg hio] at h; exact mem_parseLines h

/-- Witness for C10 on a raw output with CRLF, blanks and padding. -/
theorem parsed_paths_trimmed_nonempty_witness :
    str "a b" ≠ [] ∧ jsTrim (str "a b") = str "a b" :=
  parsed_paths_trimmed_nonempty.1 (str "  a b \r\n\r\n  ") (str "a b") (by decide)

/-- C5: `looksBinary` is a pure function of the byte buffer agreeing with the
specified classifier: empty → not binary; any NUL byte → binary; otherwise
binary exactly when, over the first `min(length, 1024)` bytes, the fraction
of control bytes (< 32, excluding tab/LF/CR) strictly exceeds 0.10; in
particular an all-printable-ASCII buffer is not binary. -/
theorem looksBinary_matches_spec :
    (∀ buffer, looksBinary buffer = looksBinarySpec buffer) ∧
    (∀ buffer, (∀ b ∈ buffer, 32 ≤ b ∧ b ≤ 126) → looksBinary buffer = false) := by
  constructor
  · intro buffer
    unfold looksBinary looksBinarySpec
    have htake : buffer.take (min buffer.length 1024) = buffer.take 1024 := by
      rcases Nat.le_total buffer.length 1024 with h | h
      · rw [Nat.min_eq_left h, List.take_length, List.take_of_length_le h]
      · rw [Nat.min_eq_right h]
    rw [htake]
  · intro buffer hb
    unfold looksBinary
    by_cases hempty : buffer = []
    · rw [if_pos hempty]
    · rw [if_neg hempty, if_neg (fun h0 => by have := (hb 0 h0).1; omega)]
      have hcount : (buffer.take 1024).countP isControlByte = 0 := by
        rw [List.countP_eq_zero]
        intro b hmem
        have h32 := (hb b (List.mem_of_mem_take hmem)).1
        simp [isControlByte, Nat.not_lt.2 h32]
      simp [hcount]

/-- Witness for C5 on a printable-ASCII buffer. -/
theorem looksBinary_matches_spec_witness : looksBinary [97, 98, 99] = false :=
  looksBinary_matches_spec.2 [97, 98, 99] (by decide)

/-- C6: when the UTF-8 byte length of the text is within the budget,
`trimUtf8` returns the text unchanged with `truncated = false`. -/
theorem trimUtf8_within_budget (text : JStr) (maxBytes : Nat)
    (h : utf8ByteLength text ≤ maxBytes) :
    trimUtf8 text maxBytes = (text, false) := by
  unfold trimUtf8
  rw [if_pos h]

/-- Witness for C6 on a concrete multi-byte string. -/
theorem trimUtf8_within_budget_witness :
    trimUtf8 (str "héllo") 10 = (str "héllo", false) :=
  trimUtf8_within_budget (str "héllo") 10 (by decide)

theorem jsTrim_ne_nil_of_mem {s : JStr} {c : Char} (hc : c ∈ s)
    (hw : isJsWhitespace c = false) : jsTrim s ≠ [] := by
  intro h
  unfold jsTrim jsTrimRight at h
  have h1 : List.dropWhile isJsWhitespace ((List.dropWhile isJsWhitespace s).reverse) = [] := by
    rwa [List.reverse_eq_nil_iff] at h
  have h2 := List.dropWhile_eq_nil_iff.1 h1
  have hsplit := List.takeWhile_append_dropWhile (p := isJsWhitespace) (l := s)
  rw [← hsplit] at hc
  rcases List.mem_append.1 hc with h3 | h3
  · have := List.mem_takeWhile_imp h3
    rw [hw] at this
    cases this
  · have := h2 c (List.mem_reverse.2 h3)
    rw [hw] at this
    cases this

/-- C8: `readUntrackedFileContent` never aborts collection and always yields
non-blank text: a non-regular file yields exactly
`"[Skipped non-regular file]"`, binary bytes yield exactly
`"[Skipped binary file]"`, a file whose decoded trimmed text is empty yields
exactly `"[Empty text file]"`, and a failed stat or disk read yields
`"[Untracked file unavailable: <reason>]"` built from the underlying error's
message. -/
theorem untracked_content_total_and_non_blank :
    (∀ o : FsOutcome, jsTrim (readUntrackedFileContent o) ≠ []) ∧
    readUntrackedFileContent .notRegularFile = str "[Skipped non-regular file]" ∧
    (∀ bytes, looksBinary bytes = true →
      readUntrackedFileContent (.fileBytes bytes) = str "[Skipped binary file]") ∧
    (∀ bytes, looksBinary bytes = false → jsTrim (utf8DecodeR bytes) = [] →
      readUntrackedFileContent (.fileBytes bytes) = str "[Empty text file]") ∧
    (∀ reason, readUntrackedFileContent (.statFails reason) =
      str "[Untracked file unavailable: " ++ reason ++ str "]") ∧
    (∀ reason, readUntrackedFileContent (.readFails reason) =
      str "[Untracked file unavailable: " ++ reason ++ str "]") := by
  refine ⟨?_, rfl, ?_, ?_, fun reason => rfl, fun reason => rfl⟩
  · intro o
    cases o with
    | statFails reason =>
      exact jsTrim_ne_nil_of_mem (c := '[')
        (List.mem_append.2 (Or.inl (List.mem_append.2 (Or.inl (by decide))))) (by decide)
    | notRegularFile => decide
    | readFails reason =>
      exact jsTrim_ne_nil_of_mem (c := '[')
        (List.mem_append.2 (Or.inl (List.mem_append.2 (Or.inl (by decide))))) (by decide)
    | fileBytes bytes =>
      unfold readUntrackedFileContent
      dsimp only
      by_cases hb : looksBinary bytes
      · rw [if_pos hb]; decide
      · rw [if_neg hb]
        by_cases ht : jsTrim (utf8DecodeR bytes) = []
        · rw [if_pos ht]; decide
        · rw [if_neg ht, jsTrim_idem]; exact ht
  · intro bytes hb
    unfold readUntrackedFileContent
    dsimp only
    rw [if_pos hb]
  · intro bytes hb ht
    unfold readUntrackedFileContent
    dsimp only
    rw [if_neg (by simp [hb])]
    rw [if_pos ht]

/-- Witness for C8 on concrete filesystem outcomes. -/
theorem untracked_content_total_and_non_blank_witness :
    readUntrackedFileContent (.fileBytes [0, 0]) = str "[Skipped binary file]" ∧
    readUntrackedFileContent (.fileBytes []) = str "[Empty text file]" ∧
    jsTrim (readUntrackedFileContent (.statFails (str "EACCES"))) ≠ [] :=
  ⟨untracked_content_total_and_non_blank.2.2.1 [0, 0] (by decide),
   untracked_content_total_and_non_blank.2.2.2.1 [] (by decide)
     (by simp [utf8DecodeR, jsTrim, jsTrimRight]),
   untracked_content_total_and_non_blank.1 (.statFails (str "EACCES"))⟩

theorem ne_of_take7 {x y : JStr} (h : x.take 7 ≠ y.take 7) : x ≠ y :=
  fun he => h (congrArg (List.take 7) he)

theorem take7_rulesSection (config : ExtensionConfig) :
    (rulesSection config).take 7 = str "Rules:\n" := by
  rw [rulesSection, List.take_append_of_le_length (show 7 ≤ (str "Rules:\n").length by decide)]
  decide

theorem take7_additionalRulesSection (config : ExtensionConfig) :
    (additionalRulesSection config).take 7 = str "Additio" := by
  rw [additionalRulesSection,
    List.take_append_of_le_length (show 7 ≤ (str "Additional rules:\n").length by decide)]
  decide

theorem take7_statusSection (snapshot : ChangeSnapshot) :
    (statusSection snapshot).take 7 = str "Git sta" := by
  rw [statusSection,
    List.take_append_of_le_length (show 7 ≤ (str "Git status (short):\n").length by decide)]
  decide

theorem take7_diffSection (snapshot : ChangeSnapshot) :
    (diffSection snapshot).take 7 = str "Git dif" := by
  rw [diffSection,
    List.take_append_of_le_length (show 7 ≤ (str "Git diff:\n").length by decide)]
  decide

theorem take7_fileLimitNote (snapshot : ChangeSnapshot) :
    (fileLimitNote snapshot).take 7 = str "Note: C" := by
  rw [fileLimitNote, List.append_assoc, List.append_assoc, List.append_assoc,
    List.take_append_of_le_length
      (show 7 ≤ (str "Note: Changed files were limited to ").length by decide)]
  decide

theorem not_mem_ite_singleton {c : Prop} [Decidable c] {x y : JStr} (h : x ≠ y) :
    x ∉ (if c then [y] else []) := by
  split
  · simp [h]
  · simp

theorem not_mem_ite_lang {c : Prop} [Decidable c] {x : JStr}
    (h1 : x ∉ zhLanguageSections) (h2 : x ∉ enLanguageSections) :
    x ∉ (if c then zhLanguageSections else enLanguageSections) := by
  split
  · exact h1
  · exact h2

theorem not_mem_pair {x a b : JStr} (h1 : x ≠ a) (h2 : x ≠ b) :
    x ∉ ([a, b] : List JStr) := by
  simp [h1, h2]

/-- C9: `buildPrompt` is a pure function of the snapshot and configuration:
`systemPrompt` is copied verbatim; the user prompt is the blank-line join of
the section list; the status section appears iff the status is non-blank
after trimming; the diff section is always present and reads literally
`"(no diff provided)"` when the diff is empty; the additional-rules section
appears iff `additionalRules` is non-blank after trimming; the file-limit
note (stating the included/total counts) appears iff `wasFileLimited`; and
the truncation note appears iff `wasTruncated`. -/
theorem buildPrompt_sections_spec (snapshot : ChangeSnapshot) (config : ExtensionConfig) :
    (buildPrompt snapshot config).systemPrompt = config.systemPrompt ∧
    (buildPrompt snapshot config).userPrompt =
      jsJoin (str "\n\n") (buildPromptSections snapshot config) ∧
    (statusSection snapshot ∈ buildPromptSections snapshot config ↔
      jsTrim snapshot.status ≠ []) ∧
    diffSection snapshot ∈ buildPromptSections snapshot config ∧
    (snapshot.diff = [] → diffSection snapshot = str "Git diff:\n(no diff provided)") ∧
    (additionalRulesSection config ∈ buildPromptSections snapshot config ↔
      jsTrim config.additionalRules ≠ []) ∧
    (fileLimitNote snapshot ∈ buildPromptSections snapshot config ↔
      snapshot.wasFileLimited = true) ∧
    (truncationNote ∈ buildPromptSections snapshot config ↔
      snapshot.wasTruncated = true) := by
  refine ⟨rfl, rfl, ?_, ?_, ?_, ?_, ?_, ?_⟩
  · by_cases hf : jsTrim snapshot.status = []
    · refine iff_of_false ?_ (fun hne => hne hf)
      unfold buildPromptSections
      rw [if_neg (show ¬(jsTrim snapshot.status ≠ []) from fun hne => hne hf)]
      intro hmem
      rcases List.mem_append.1 hmem with hmem | h
      · rcases List.mem_append.1 hmem with hmem | h
        · rcases List.mem_append.1 hmem with hmem | h
          · rcases List.mem_append.1 hmem with hmem | h
            · rcases List.mem_append.1 hmem with hmem | h
              · rcases List.mem_append.1 hmem with h | h
                · rcases List.mem_cons.1 h with h | h
                  · exact ne_of_take7 (by rw [take7_statusSection]; decide) h
                  · rcases List.mem_cons.1 h with h | h
                    · exact ne_of_take7 (by rw [take7_statusSection, take7_rulesSection]; decide) h
                    · cases h
                · exact not_mem_ite_singleton (ne_of_take7 (by rw [take7_statusSection, take7_additionalRulesSection]; decide)) h
              · refine not_mem_ite_lang ?_ ?_ h
                · exact not_mem_pair (ne_of_take7 (by rw [take7_statusSection]; decide)) (ne_of_take7 (by rw [take7_statusSection]; decide))
                · exact not_mem_pair (ne_of_take7 (by rw [take7_statusSection]; decide)) (ne_of_take7 (by rw [take7_statusSection]; decide))
            · cases h
          · rcases List.mem_cons.1 h with h | h
            · exact ne_of_take7 (by rw [take7_statusSection, take7_diffSection]; decide) h
            · cases h
        · exact not_mem_ite_singleton (ne_of_take7 (by rw [take7_statusSection, take7_fileLimitNote]; decide)) h
      · exact not_mem_ite_singleton (ne_of_take7 (by rw [take7_statusSection]; decide)) h
    · refine iff_of_true ?_ hf
      unfold buildPromptSections
      rw [if_pos hf]
      simp
  · unfold buildPromptSections
    simp
  · intro h
    rw [diffSection, if_pos h]
    decide
  · by_cases hf : jsTrim config.additionalRules = []
    · refine iff_of_false ?_ (fun hne => hne hf)
      unfold buildPromptSections
      rw [if_neg (show ¬(jsTrim config.additionalRules ≠ []) from fun hne => hne hf)]
      intro hmem
      rcases List.mem_append.1 hmem with hmem | h
      · rcases List.mem_append.1 hmem with hmem | h
        · rcases List.mem_append.1 hmem with hmem | h
          · rcases List.mem_append.1 hmem with hmem | h
            · rcases List.mem_append.1 hmem with hmem | h
              · rcases List.mem_append.1 hmem with h | h
                · rcases List.mem_cons.1 h with h | h
                  · exact ne_of_take7 (by rw [take7_additionalRulesSection]; decide) h
                  · rcases List.mem_cons.1 h with h | h
                    · exact ne_of_take7 (by rw [take7_additionalRulesSection, take7_rulesSection]; decide) h
                    · cases h
                · cases h
              · refine not_mem_ite_lang ?_ ?_ h
                · exact not_mem_pair (ne_of_take7 (by rw [take7_additionalRulesSection]; decide)) (ne_of_take7 (by rw [take7_additionalRulesSection]; decide))
                · exact not_mem_pair (ne_of_take7 (by rw [take7_additionalRulesSection]; decide)) (ne_of_take7 (by rw [take7_additionalRulesSection]; decide))
            · exact not_mem_ite_singleton (ne_of_take7 (by rw [take7_additionalRulesSection, take7_statusSection]; decide)) h
          · rcases List.mem_cons.1 h with h | h
            · exact ne_of_take7 (by rw [take7_additionalRulesSection, take7_diffSection]; decide) h
            · cases h
        · exact not_mem_ite_singleton (ne_of_take7 (by rw [take7_additionalRulesSection, take7_fileLimitNote]; decide)) h
      · exact not_mem_ite_singleton (ne_of_take7 (by rw [take7_additionalRulesSection]; decide)) h
    · refine iff_of_true ?_ hf
      unfold buildPromptSections
      rw [if_pos hf]
      simp
  · by_cases hf : snapshot.wasFileLimited
    · refine iff_of_true ?_ hf
      unfold buildPromptSections
      rw [if_pos hf]
      simp
    · refine iff_of_false ?_ hf
      unfold buildPromptSections
      rw [if_neg hf]
      intro hmem
      rcases List.mem_append.1 hmem with hmem | h
      · rcases List.mem_append.1 hmem with hmem | h
        · rcases List.mem_append.1 hmem with hmem | h
          · rcases List.mem_append.1 hmem with hmem | h
            · rcases List.mem_append.1 hmem with hmem | h
              · rcases List.mem_append.1 hmem with h | h
                · rcases List.mem_cons.1 h with h | h
                  · exact ne_of_take7 (by rw [take7_fileLimitNote]; decide) h
                  · rcases List.mem_cons.1 h with h | h
                    · exact ne_of_take7 (by rw [take7_fileLimitNote, take7_rulesSection]; decide) h
                    · cases h
                · exact not_mem_ite_singleton (ne_of_take7 (by rw [take7_fileLimitNote, take7_additionalRulesSection]; decide)) h
              · refine not_mem_ite_lang ?_ ?_ h
                · exact not_mem_pair (ne_of_take7 (by rw [take7_fileLimitNote]; decide)) (ne_of_take7 (by rw [take7_fileLimitNote]; decide))
                · exact not_mem_pair (ne_of_take7 (by rw [take7_fileLimitNote]; decide)) (ne_of_take7 (by rw [take7_fileLimitNote]; decide))
            · exact not_mem_ite_singleton (ne_of_take7 (by rw [take7_fileLimitNote, take7_statusSection]; decide)) h
          · rcases List.mem_cons.1 h with h | h
            · exact ne_of_take7 (by rw [take7_fileLimitNote, take7_diffSection]; decide) h
            · cases h
        · cases h
      · exact not_mem_ite_singleton (ne_of_take7 (by rw [take7_fileLimitNote]; decide)) h
  · by_cases hf : snapshot.wasTruncated
    · refine iff_of_true ?_ hf
      unfold buildPromptSections
      rw [if_pos hf]
      simp
    · refine iff_of_false ?_ hf
      unfold buildPromptSections
      rw [if_neg hf]
      intro hmem
      rcases List.mem_append.1 hmem with hmem | h
      · rcases List.mem_append.1 hmem with hmem | h
        · rcases List.mem_append.1 hmem with hmem | h
          · rcases List.mem_append.1 hmem with hmem | h
            · rcases List.mem_append.1 hmem with hmem | h
              · rcases List.mem_append.1 hmem with h | h
                · rcases List.mem_cons.1 h with h | h
                  · exact ne_of_take7 (by decide) h
                  · rcases List.mem_cons.1 h with h | h
                    · exact ne_of_take7 (by rw [take7_rulesSection]; decide) h
                    · cases h
                · exact not_mem_ite_singleton (ne_of_take7 (by rw [take7_additionalRulesSection]; decide)) h
              · refine not_mem_ite_lang ?_ ?_ h
                · exact not_mem_pair (ne_of_take7 (by decide)) (ne_of_take7 (by decide))
                · exact not_mem_pair (ne_of_take7 (by decide)) (ne_of_take7 (by decide))
            · exact not_mem_ite_singleton (ne_of_take7 (by rw [take7_statusSection]; decide)) h
          · rcases List.mem_cons.1 h with h | h
            · exact ne_of_take7 (by rw [take7_diffSection]; decide) h
            · cases h
        · exact not_mem_ite_singleton (ne_of_take7 (by rw [take7_fileLimitNote]; decide)) h
      · cases h

/-- Witness for C9 on a snapshot with an empty diff. -/
theorem buildPrompt_sections_spec_witness :
    (buildPrompt wSnapshotEmpty wConfig).systemPrompt = wConfig.systemPrompt ∧
    diffSection wSnapshotEmpty = str "Git diff:\n(no diff provided)" :=
  ⟨(buildPrompt_sections_spec wSnapshotEmpty wConfig).1,
   (buildPrompt_sections_spec wSnapshotEmpty wConfig).2.2.2.2.1 rfl⟩

/-! ## UTF-8 lemmas -/

theorem utf8DecodeR_nil : utf8DecodeR [] = [] := by
  rw [utf8DecodeR]

theorem utf8DecodeR_cons (b : Nat) (rest : List Nat) :
    utf8DecodeR (b :: rest) = (utf8Step b rest).1 :: utf8DecodeR (utf8Step b rest).2 := by
  rw [utf8DecodeR]

theorem char_toNat_valid (c : Char) :
    c.toNat < 0xD800 ∨ (0xDFFF < c.toNat ∧ c.toNat < 0x110000) :=
  c.valid

theorem utf8Encode_cons (c : Char) (s : JStr) :
    utf8Encode (c :: s) = utf8CharBytes c ++ utf8Encode s := by
  simp [utf8Encode]

theorem utf8Encode_append (a b : JStr) :
    utf8Encode (a ++ b) = utf8Encode a ++ utf8Encode b := by
  simp [utf8Encode]

theorem utf8ByteLength_cons (c : Char) (s : JStr) :
    utf8ByteLength (c :: s) = (utf8CharBytes c).length + utf8ByteLength s := by
  rw [utf8ByteLength, utf8Encode_cons, List.length_append, utf8ByteLength]

theorem utf8ByteLength_append (a b : JStr) :
    utf8ByteLength (a ++ b) = utf8ByteLength a + utf8ByteLength b := by
  rw [utf8ByteLength, utf8Encode_append, List.length_append, utf8ByteLength, utf8ByteLength]

theorem utf8CharBytes_length_pos (c : Char) : 1 ≤ (utf8CharBytes c).length := by
  unfold utf8CharBytes
  dsimp only
  repeat' split
  all_goals simp

set_option maxHeartbeats 2000000 in
set_option maxRecDepth 4096 in
theorem utf8DecodeR_charBytes (c : Char) (rest : List Nat) :
    utf8DecodeR (utf8CharBytes c ++ rest) = c :: utf8DecodeR rest := by
  have hv := char_toNat_valid c
  unfold utf8CharBytes
  by_cases h1 : c.toNat < 0x80
  · rw [if_pos h1, List.cons_append, List.nil_append, utf8DecodeR_cons]
    have hstep : utf8Step c.toNat rest = (Char.ofNat c.toNat, rest) := by
      unfold utf8Step
      rw [if_pos h1]
    rw [hstep, Char.ofNat_toNat]
  · rw [if_neg h1]
    by_cases h2 : c.toNat < 0x800
    · rw [if_pos h2, List.cons_append, List.cons_append, List.nil_append, utf8DecodeR_cons]
      have hstep : utf8Step (0xC0 + c.toNat / 64) ((0x80 + c.toNat % 64) :: rest) =
          (Char.ofNat c.toNat, rest) := by
        unfold utf8Step
        repeat' split
        all_goals injections
        all_goals subst_vars
        all_goals first
          | (exfalso; omega)
          | (refine congrArg₂ Prod.mk (congrArg Char.ofNat ?_) rfl; omega)
      rw [hstep, Char.ofNat_toNat]
    · rw [if_neg h2]
      by_cases h3 : c.toNat < 0x10000
      · rw [if_pos h3, List.cons_append, List.cons_append, List.cons_append,
          List.nil_append, utf8DecodeR_cons]
        have hstep : utf8Step (0xE0 + c.toNat / 4096)
            ((0x80 + c.toNat / 64 % 64) :: (0x80 + c.toNat % 64) :: rest) =
            (Char.ofNat c.toNat, rest) := by
          unfold utf8Step
          repeat' split
          all_goals injections
          all_goals subst_vars
          all_goals first
            | (exfalso; omega)
            | (refine congrArg₂ Prod.mk (congrArg Char.ofNat ?_) rfl; omega)
        rw [hstep, Char.ofNat_toNat]
      · rw [if_neg h3, List.cons_append, List.cons_append, List.cons_append,
          List.cons_append, List.nil_append, utf8DecodeR_cons]
        have hstep : utf8Step (0xF0 + c.toNat / 262144)
            ((0x80 + c.toNat / 4096 % 64) :: (0x80 + c.toNat / 64 % 64) ::
              (0x80 + c.toNat % 64) :: rest) =
            (Char.ofNat c.toNat, rest) := by
          unfold utf8Step
          repeat' split
          all_goals injections
          all_goals subst_vars
          all_goals first
            | (exfalso; omega)
            | (refine congrArg₂ Prod.mk (congrArg Char.ofNat ?_) rfl; omega)
        rw [hstep, Char.ofNat_toNat]

set_option maxHeartbeats 2000000 in
set_option maxRecDepth 4096 in
theorem utf8DecodeR_take_charBytes (c : Char) (k : Nat) (h1 : 1 ≤ k)
    (h2 : k < (utf8CharBytes c).length) :
    utf8DecodeR ((utf8CharBytes c).take k) = [replChar] := by
  have hv := char_toNat_valid c
  by_cases hc1 : c.toNat < 0x80
  · exfalso
    have hlen : (utf8CharBytes c).length = 1 := by simp [utf8CharBytes, hc1]
    omega
  · by_cases hc2 : c.toNat < 0x800
    · have hlen : (utf8CharBytes c).length = 2 := by simp [utf8CharBytes, hc1, hc2]
      have hk : k = 1 := by omega
      subst hk
      have htake : (utf8CharBytes c).take 1 = [0xC0 + c.toNat / 64] := by
        simp [utf8CharBytes, hc1, hc2]
      rw [htake, utf8DecodeR_cons]
      have hstep : utf8Step (0xC0 + c.toNat / 64) [] = (replChar, []) := by
        unfold utf8Step
        repeat' split
        all_goals injections
        all_goals first | rfl | (exfalso; omega)
      rw [hstep, utf8DecodeR_nil]
    · by_cases hc3 : c.toNat < 0x10000
      · have hlen : (utf8CharBytes c).length = 3 := by simp [utf8CharBytes, hc1, hc2, hc3]
        have hk : k = 1 ∨ k = 2 := by omega
        rcases hk with rfl | rfl
        · have htake : (utf8CharBytes c).take 1 = [0xE0 + c.toNat / 4096] := by
            simp [utf8CharBytes, hc1, hc2, hc3]
          rw [htake, utf8DecodeR_cons]
          have hstep : utf8Step (0xE0 + c.toNat / 4096) [] = (replChar, []) := by
            unfold utf8Step
            repeat' split
            all_goals injections
            all_goals first | rfl | (exfalso; omega)
          rw [hstep, utf8DecodeR_nil]
        · have htake : (utf8CharBytes c).take 2 =
              [0xE0 + c.toNat / 4096, 0x80 + c.toNat / 64 % 64] := by
            simp [utf8CharBytes, hc1, hc2, hc3]
          rw [htake, utf8DecodeR_cons]
          have hstep : utf8Step (0xE0 + c.toNat / 4096) [0x80 + c.toNat / 64 % 64] =
              (replChar, []) := by
            unfold utf8Step
            repeat' split
            all_goals injections
            all_goals subst_vars
            all_goals first | rfl | (exfalso; omega)
          rw [hstep, utf8DecodeR_nil]
      · have hlen : (utf8CharBytes c).length = 4 := by simp [utf8CharBytes, hc1, hc2, hc3]
        have hk : k = 1 ∨ k = 2 ∨ k = 3 := by omega
        rcases hk with rfl | rfl | rfl
        · have htake : (utf8CharBytes c).take 1 = [0xF0 + c.toNat / 262144] := by
            simp [utf8CharBytes, hc1, hc2, hc3]
          rw [htake, utf8DecodeR_cons]
          have hstep : utf8Step (0xF0 + c.toNat / 262144) [] = (replChar, []) := by
            unfold utf8Step
            repeat' split
            all_goals injections
            all_goals first | rfl | (exfalso; omega)
          rw [hstep, utf8DecodeR_nil]
        · have htake : (utf8CharBytes c).take 2 =
              [0xF0 + c.toNat / 262144, 0x80 + c.toNat / 4096 % 64] := by
            simp [utf8CharBytes, hc1, hc2, hc3]
          rw [htake, utf8DecodeR_cons]
          have hstep : utf8Step (0xF0 + c.toNat / 262144) [0x80 + c.toNat / 4096 % 64] =
              (replChar, []) := by
            unfold utf8Step
            repeat' split
            all_goals injections
            all_goals subst_vars
            all_goals first | rfl | (exfalso; omega)
          rw [hstep, utf8DecodeR_nil]
        · have htake : (utf8CharBytes c).take 3 =
              [0xF0 + c.toNat / 262144, 0x80 + c.toNat / 4096 % 64,
                0x80 + c.toNat / 64 % 64] := by
            simp [utf8CharBytes, hc1, hc2, hc3]
          rw [htake, utf8DecodeR_cons]
          have hstep : utf8Step (0xF0 + c.toNat / 262144)
              [0x80 + c.toNat / 4096 % 64, 0x80 + c.toNat / 64 % 64] =
              (replChar, []) := by
            unfold utf8Step
            repeat' split
            all_goals injections
            all_goals subst_vars
            all_goals first | rfl | (exfalso; omega)
          rw [hstep, utf8DecodeR_nil]

theorem utf8DecodeR_take_encode :
    ∀ (s : JStr) (n : Nat), n < utf8ByteLength s →
    ∃ pre c suf, s = pre ++ c :: suf ∧ utf8ByteLength pre ≤ n ∧
      n < utf8ByteLength pre + (utf8CharBytes c).length ∧
      utf8DecodeR ((utf8Encode s).take n) =
        pre ++ (if n = utf8ByteLength pre then [] else [replChar]) := by
  intro s
  induction s with
  | nil =>
    intro n hn
    simp [utf8ByteLength, utf8Encode] at hn
  | cons c s2 ih =>
    intro n hn
    rw [utf8ByteLength_cons] at hn
    by_cases hnL : n < (utf8CharBytes c).length
    · refine ⟨[], c, s2, rfl, ?_, ?_, ?_⟩
      · simp [utf8ByteLength, utf8Encode]
      · simpa [utf8ByteLength, utf8Encode] using hnL
      · rw [utf8Encode_cons, List.take_append_of_le_length (Nat.le_of_lt hnL)]
        by_cases hn0 : n = 0
        · subst hn0
          simp [utf8ByteLength, utf8Encode, utf8DecodeR_nil]
        · have h1 : 1 ≤ n := Nat.one_le_iff_ne_zero.2 hn0
          rw [utf8DecodeR_take_charBytes c n h1 hnL]
          rw [if_neg (show ¬(n = utf8ByteLength []) from by
            simp [utf8ByteLength, utf8Encode]; omega)]
          simp
    · push_neg at hnL
      have hn2 : n - (utf8CharBytes c).length < utf8ByteLength s2 := by omega
      obtain ⟨pre, c2, suf, hs, hle, hlt, hdec⟩ := ih (n - (utf8CharBytes c).length) hn2
      refine ⟨c :: pre, c2, suf, ?_, ?_, ?_, ?_⟩
      · rw [hs]
        rfl
      · rw [utf8ByteLength_cons]
        omega
      · rw [utf8ByteLength_cons]
        omega
      · rw [utf8Encode_cons, List.take_append_eq_append_take,
          List.take_of_length_le hnL, utf8DecodeR_charBytes, hdec, List.cons_append]
        have hcond : (n - (utf8CharBytes c).length = utf8ByteLength pre) ↔
            (n = utf8ByteLength (c :: pre)) := by
          rw [utf8ByteLength_cons]
          omega
        rw [if_congr hcond rfl rfl]

theorem utf8ByteLength_decode_take (s : JStr) (n : Nat) (h : n < utf8ByteLength s) :
    utf8ByteLength (utf8DecodeR ((utf8Encode s).take n)) ≤ n + 2 := by
  obtain ⟨pre, c, suf, hs, hle, hlt, hdec⟩ := utf8DecodeR_take_encode s n h
  rw [hdec, utf8ByteLength_append]
  by_cases hc : n = utf8ByteLength pre
  · rw [if_pos hc]
    have : utf8ByteLength ([] : JStr) = 0 := rfl
    omega
  · rw [if_neg hc]
    have h3 : utf8ByteLength [replChar] = 3 := by decide
    omega

theorem trimUtf8_byteLength_le (text : JStr) (maxBytes : Nat) :
    utf8ByteLength (trimUtf8 text maxBytes).1 ≤
      maxBytes + utf8ByteLength truncationMarker + 2 := by
  unfold trimUtf8
  by_cases h : utf8ByteLength text ≤ maxBytes
  · rw [if_pos h]
    dsimp only
    omega
  · rw [if_neg h]
    dsimp only
    rw [utf8ByteLength_append]
    have := utf8ByteLength_decode_take text maxBytes (by omega)
    omega

theorem utf8DecodeR_encode_append (p : JStr) (rest : List Nat) :
    utf8DecodeR (utf8Encode p ++ rest) = p ++ utf8DecodeR rest := by
  induction p with
  | nil => simp [utf8Encode]
  | cons c t ih =>
    rw [utf8Encode_cons, List.append_assoc, utf8DecodeR_charBytes, ih]
    rfl

/-- C2 (amended): when the byte length exceeds the budget, `trimUtf8`
returns the longest prefix of the text whose UTF-8 encoding fits the byte
cut, followed by a single U+FFFD replacement character exactly when the raw
byte cut split a multi-byte code point (Node's decoder replaces the trailing
partial sequence with U+FFFD instead of dropping it), followed by the
truncation marker, with `truncated = true`. -/
theorem trimUtf8_truncates_with_replacement (text : JStr) (maxBytes : Nat)
    (h : maxBytes < utf8ByteLength text) :
    ∃ pre c suf, text = pre ++ c :: suf ∧ utf8ByteLength pre ≤ maxBytes ∧
      maxBytes < utf8ByteLength pre + (utf8CharBytes c).length ∧
      trimUtf8 text maxBytes =
        (pre ++ (if maxBytes = utf8ByteLength pre then [] else [replChar]) ++
          truncationMarker, true) := by
  obtain ⟨pre, c, suf, hs, hle, hlt, hdec⟩ := utf8DecodeR_take_encode text maxBytes h
  refine ⟨pre, c, suf, hs, hle, hlt, ?_⟩
  unfold trimUtf8
  rw [if_neg (by omega), hdec]

/-- Witness for the amended C2 on a concrete cut through a multi-byte
character. -/
theorem trimUtf8_truncates_with_replacement_witness :
    trimUtf8 (str "a€") 2 = ((str "a" ++ [replChar]) ++ truncationMarker, true) := by
  have happlied := trimUtf8_truncates_with_replacement (str "a€") 2 (by decide)
  unfold trimUtf8
  rw [if_neg (by decide)]
  have htake : (utf8Encode (str "a€")).take 2 = [97, 226] := by decide
  rw [htake, utf8DecodeR_cons]
  have hstep : utf8Step 97 [226] = ('a', [226]) := rfl
  rw [hstep]
  dsimp only
  rw [utf8DecodeR_cons]
  have hstep2 : utf8Step 226 [] = (replChar, []) := rfl
  rw [hstep2]
  dsimp only
  rw [utf8DecodeR_nil]
  rfl

/-- C2 counterexample: cutting `"€"` (3 UTF-8 bytes) at 2 bytes does not
drop the partial code point — Node's decoder turns the two orphaned bytes
into a U+FFFD replacement character, so the result is not the marker alone
as the claim's "dropped" reading requires. -/
theorem trimUtf8_counterexample_replacement :
    trimUtf8 (str "€") 2 = (replChar :: truncationMarker, true) ∧
    replChar :: truncationMarker ≠ truncationMarker := by
  constructor
  · unfold trimUtf8
    rw [if_neg (by decide)]
    have htake : (utf8Encode (str "€")).take 2 = [226, 130] := by decide
    rw [htake, utf8DecodeR_cons]
    have hstep : utf8Step 226 [130] = (replChar, []) := rfl
    rw [hstep]
    dsimp only
    rw [utf8DecodeR_nil]
    rfl
  · decide

/-- C1 (amended): for every snapshot a successful collection returns under a
configuration with `truncateDiff` enabled and `maxDiffBytes ≥ 4096`, the
UTF-8 byte length of `diff` never exceeds `maxDiffBytes` plus the byte
length of the truncation marker plus 2 (the decoder replaces a split
trailing multi-byte code point with a 3-byte U+FFFD, so the cut can
overshoot the raw byte budget by up to two bytes; with `truncateDiff`
disabled the diff is not bounded at all). -/
theorem collect_diff_byte_budget (git : GitEnv) (fs : JStr → FsOutcome)
    (config : ExtensionConfig) (s : ChangeSnapshot)
    (_h4096 : 4096 ≤ config.maxDiffBytes)
    (htr : config.truncateDiff = true)
    (h : collectRepositoryChanges git fs config = .ok s) :
    utf8ByteLength s.diff ≤
      config.maxDiffBytes + utf8ByteLength truncationMarker + 2 := by
  obtain ⟨-, -, -, -, -, merged, hdiff, -⟩ := collect_ok_spec h
  rw [hdiff, htr, if_pos rfl]
  exact trimUtf8_byteLength_le merged config.maxDiffBytes

/-- Witness for the amended C1 on a concrete successful collection. -/
theorem collect_diff_byte_budget_witness :
    utf8ByteLength wSnapshotTrunc.diff ≤
      wConfigTrunc.maxDiffBytes + utf8ByteLength truncationMarker + 2 :=
  collect_diff_byte_budget wGitOk wFs wConfigTrunc wSnapshotTrunc
    (by decide) rfl (by rfl)

theorem jsTrim_eq_self {s : JStr}
    (h1 : s.dropWhile isJsWhitespace = s)
    (h2 : s.reverse.dropWhile isJsWhitespace = s.reverse) : jsTrim s = s := by
  unfold jsTrim jsTrimRight
  rw [h1, h2, List.reverse_reverse]

theorem utf8ByteLength_replicate_a (n : Nat) :
    utf8ByteLength (List.replicate n 'a') = n := by
  induction n with
  | zero => rfl
  | succ n ih =>
    rw [List.replicate_succ, utf8ByteLength_cons, ih,
      show (utf8CharBytes 'a').length = 1 from by decide]
    omega

theorem cexDiffOut_cons :
    cexDiffOut = 'a' :: (List.replicate 4075 'a' ++ str "€z") := by
  rw [cexDiffOut, show (4076 : Nat) = 4075 + 1 from rfl, List.replicate_succ,
    List.cons_append]

theorem cexDiffOut_trim : jsTrim cexDiffOut = cexDiffOut := by
  apply jsTrim_eq_self
  · rw [cexDiffOut_cons, List.dropWhile_cons_of_neg (by decide)]
  · rw [cexDiffOut, List.reverse_append,
      show (str "€z").reverse = 'z' :: ['€'] from by decide, List.cons_append,
      List.dropWhile_cons_of_neg (by decide)]

theorem cexDiffOut_ne_nil : cexDiffOut ≠ [] := by
  rw [cexDiffOut_cons]
  exact List.cons_ne_nil _ _

theorem cex_runGit_status : runGit cexGit statusCmd = .ok [] := rfl

theorem cex_runGit_staged_names : runGit cexGit stagedNamesCmd = .ok (str "f") := rfl

theorem cex_runGit_staged_diff :
    runGit cexGit (stagedDiffCmd (str "f")) = .ok cexDiffOut := by
  unfold runGit
  have henv : cexGit (stagedDiffCmd (str "f")) =
      { exitError := none, stdout := cexDiffOut, stderr := [] } := by
    unfold cexGit
    rw [if_pos rfl]
  rw [henv]
  dsimp only
  rw [cexDiffOut_trim]

theorem cex_fileSections :
    fileSections cexGit wFs [str "f"] [] [] (str "f") =
      .ok [str "# Staged diff\n" ++ cexDiffOut] := by
  unfold fileSections stagedSectionStep unstagedSectionStep untrackedSectionOf
  rw [if_pos (List.mem_singleton.2 rfl), cex_runGit_staged_diff]
  dsimp only
  rw [if_pos (show jsTrim cexDiffOut ≠ [] from by
    rw [cexDiffOut_trim]; exact cexDiffOut_ne_nil)]
  rw [if_neg (by simp), if_neg (by simp)]
  dsimp only
  rw [List.append_nil, List.append_nil]

theorem cex_blocks :
    collectFileBlocks cexGit wFs [str "f"] [] [] [str "f"] =
      .ok [str "## f\n" ++ (str "# Staged diff\n" ++ cexDiffOut)] := by
  unfold collectFileBlocks
  rw [cex_fileSections]
  dsimp only
  rw [show collectFileBlocks cexGit wFs [str "f"] [] [] [] = .ok [] from rfl]
  dsimp only
  rw [if_pos (show ([str "# Staged diff\n" ++ cexDiffOut] : List JStr) ≠ [] from by simp)]
  rw [List.append_nil]
  rw [show jsJoin (str "\n\n") [str "# Staged diff\n" ++ cexDiffOut] =
    str "# Staged diff\n" ++ cexDiffOut from rfl]
  rw [show str "## " ++ str "f" ++ str "\n" = str "## f\n" from by decide]

theorem cexMerged_eq : cexMerged = cexAsciiPrefix ++ str "€z" := by
  rw [cexMerged, cexDiffOut, cexAsciiPrefix, List.append_assoc]

theorem cexAsciiPrefix_byteLength : utf8ByteLength cexAsciiPrefix = 4095 := by
  rw [cexAsciiPrefix, utf8ByteLength_append, utf8ByteLength_replicate_a,
    show utf8ByteLength (str "## f\n# Staged diff\n") = 19 from by decide]

theorem cexMerged_byteLength : utf8ByteLength cexMerged = 4099 := by
  rw [cexMerged_eq, utf8ByteLength_append, cexAsciiPrefix_byteLength,
    show utf8ByteLength (str "€z") = 4 from by decide]

theorem cex_trim : trimUtf8 cexMerged 4096 = (cexDiffText, true) := by
  unfold trimUtf8
  rw [if_neg (by rw [cexMerged_byteLength]; omega)]
  have htake : (utf8Encode cexMerged).take 4096 = utf8Encode cexAsciiPrefix ++ [226] := by
    rw [cexMerged_eq, utf8Encode_append, List.take_append_eq_append_take]
    have hlen : (utf8Encode cexAsciiPrefix).length = 4095 := cexAsciiPrefix_byteLength
    rw [List.take_of_length_le (by omega), hlen,
      show (4096 - 4095 : Nat) = 1 from rfl,
      show (utf8Encode (str "€z")).take 1 = [226] from by decide]
  rw [htake, utf8DecodeR_encode_append,
    show utf8DecodeR [226] = [replChar] from by
      rw [utf8DecodeR_cons, show utf8Step 226 [] = (replChar, []) from rfl]
      dsimp only
      rw [utf8DecodeR_nil]]
  rw [cexDiffText]

theorem cex_collect :
    collectRepositoryChanges cexGit wFs cexConfig = .ok cexSnapshot := by
  unfold collectRepositoryChanges
  rw [cex_runGit_status]
  dsimp only
  rw [cex_runGit_staged_names]
  dsimp only
  rw [if_pos (show cexConfig.includeOnlyStaged = true from rfl),
    if_pos (show cexConfig.includeOnlyStaged = true from rfl)]
  dsimp only
  rw [show parseLines (str "f") = [str "f"] from rfl]
  rw [show uniqueLines ([str "f"] ++ [] ++ []) = [str "f"] from rfl]
  rw [show List.take cexConfig.maxChangedFiles [str "f"] = [str "f"] from rfl]
  rw [cex_blocks]
  dsimp only
  rw [show jsJoin (str "\n\n") [str "## f\n" ++ (str "# Staged diff\n" ++ cexDiffOut)] =
    str "## f\n" ++ (str "# Staged diff\n" ++ cexDiffOut) from rfl]
  rw [show str "## f\n" ++ (str "# Staged diff\n" ++ cexDiffOut) = cexMerged from by
    rw [cexMerged, ← List.append_assoc,
      show str "## f\n" ++ str "# Staged diff\n" = str "## f\n# Staged diff\n" from by decide]]
  rw [if_pos (show cexConfig.truncateDiff = true from rfl),
    show cexConfig.maxDiffBytes = 4096 from rfl, cex_trim]
  rfl

/-- C1 counterexample: a successful collection with truncation enabled and
`maxDiffBytes = 4096` whose merged diff is 4099 bytes with the 4096-byte cut
landing one byte into a `€`: the decoder replaces the orphaned lead byte
with a 3-byte U+FFFD, so the snapshot's diff is 4142 UTF-8 bytes, exceeding
`maxDiffBytes` plus the 44-byte marker (4140) by two. -/
theorem collect_diff_over_budget_counterexample :
    4096 ≤ cexConfig.maxDiffBytes ∧
    collectRepositoryChanges cexGit wFs cexConfig = Except.ok cexSnapshot ∧
    cexConfig.maxDiffBytes + utf8ByteLength truncationMarker <
      utf8ByteLength cexSnapshot.diff := by
  refine ⟨by decide, cex_collect, ?_⟩
  show cexConfig.maxDiffBytes + utf8ByteLength truncationMarker <
    utf8ByteLength cexDiffText
  rw [cexDiffText, utf8ByteLength_append, utf8ByteLength_append,
    cexAsciiPrefix_byteLength,
    show utf8ByteLength [replChar] = 3 from by decide,
    show utf8ByteLength truncationMarker = 44 from by decide,
    show cexConfig.maxDiffBytes = 4096 from rfl]
  omega

/-- C7: if any git invocation performed during collection fails, the whole
collection fails with an error carrying the failing command's arguments and
the trimmed stderr (or the transport error message when stderr is blank),
and no partial snapshot is returned; conversely a returned snapshot implies
every issued command succeeded. -/
theorem collect_fails_on_command_failure (git : GitEnv) (fs : JStr → FsOutcome)
    (config : ExtensionConfig) :
    (∀ e, collectRepositoryChanges git fs config = .error e →
      ∃ args, (git args).exitError.isSome ∧ e = renderGitError args (git args)) ∧
    (∀ s, collectRepositoryChanges git fs config = .ok s →
      collectionCommandsOk git config) :=
  ⟨fun _ h => collect_error h, fun _ h => (collect_ok_spec h).2.2.2.2.1⟩

/-- Witness for C7: with a backend whose every command fails, collection
fails with the status command's rendered error. -/
theorem collect_fails_on_command_failure_witness :
    ∃ args, (wGitFail args).exitError.isSome ∧
      renderGitError statusCmd (wGitFail statusCmd) =
        renderGitError args (wGitFail args) :=
  (collect_fails_on_command_failure wGitFail wFs wConfig).1
    (renderGitError statusCmd (wGitFail statusCmd)) (by rfl)
